import Mathlib

/-!
Pintos system-call layer (`userprog/syscall.c`).

A shallow embedding of the user-memory validator, the system-call dispatcher
and the handle-based handlers of `pintos/src/userprog/syscall.c`, followed by the
properties proved about them.

Conventions of the embedding:

* a user pointer is its 32-bit value, a `Nat` below `2 ^ 32`; pointer
  arithmetic is taken modulo `2 ^ 32`;
* a C `int` is an `Int` in `[-2 ^ 31, 2 ^ 31)`; an `unsigned` passed where an
  `int` is expected is reinterpreted by `toInt32`;
* collaborators whose code is outside `syscall.c` (page directory, file
  system, input device) are parameters of the definitions.
-/

namespace Pintos

/-! ## Machine words -/

/-- Number of values of a 32-bit word. -/
def WORD : Nat := 2 ^ 32

/-- Size of a page in bytes (`1 << 12` in the source). -/
def PGSIZE : Nat := 4096

/-- Reinterpretation of a 32-bit pattern as a C `int` (two's complement). -/
def toInt32 (u : Nat) : Int :=
  if u % WORD < 2 ^ 31 then ((u % WORD : Nat) : Int) else ((u % WORD : Nat) : Int) - (WORD : Int)

/-- The 32-bit pattern of a C `int`. -/
def toUInt32 (i : Int) : Nat := (i % (WORD : Int)).toNat

/-- Pointer plus a signed byte offset, modulo `2 ^ 32`. -/
def ptr_add (p : Nat) (d : Int) : Nat := toUInt32 ((p : Int) + d)

/-! ## User memory -/

/-- Modelled from the spec: the memory-translation service ("is this user
address currently mapped, and is it writable") and the user/kernel limit
`PHYS_BASE` of `threads/vaddr.h`, neither of which is in `syscall.c`.
`present` and `writable` are indexed by page number; `byte` gives the byte
stored at an address. -/
structure UserMem where
  PHYS_BASE : Nat
  present : Nat → Bool
  writable : Nat → Bool
  byte : Nat → Fin 256

/-- The user/kernel limit is a page-aligned 32-bit address. -/
def UserMem.wf (m : UserMem) : Prop :=
  m.PHYS_BASE % PGSIZE = 0 ∧ m.PHYS_BASE < WORD

instance (m : UserMem) : Decidable m.wf := by
  unfold UserMem.wf; exact inferInstance

/-- Modelled from the spec: the macro `is_user_vaddr` of `threads/vaddr.h`, true
when the address is inside the user-accessible range, `vaddr < PHYS_BASE`. -/
def is_user_vaddr (m : UserMem) (vaddr : Nat) : Bool := decide (vaddr < m.PHYS_BASE)

/-- Modelled from the spec: `pagedir_get_page (pd, vaddr) != NULL`, true when
the page holding `vaddr` is currently mapped. -/
def pagedir_get_page (m : UserMem) (vaddr : Nat) : Bool := m.present (vaddr / PGSIZE)

/-- The function `syscall_translate_vaddr`: the parameter `write` is accepted
and not consulted. -/
def syscall_translate_vaddr (m : UserMem) (vaddr : Nat) (_write : Bool) : Bool :=
  if vaddr = 0 ∨ !is_user_vaddr m vaddr then false
  else pagedir_get_page m vaddr

/-- The `do ... while (size--)` loop of `syscall_check_user_buffer`.  `size` is
the 32-bit pattern of the shifted `int`; decrementing past the most negative
value is taken modulo `2 ^ 32`, so the loop ends when the pattern reaches 0. -/
def check_user_buffer_loop (m : UserMem) (write : Bool) : Nat → Nat → Bool
  | ustr, 0 => if !syscall_translate_vaddr m ustr write then false else true
  | ustr, size + 1 =>
    if !syscall_translate_vaddr m ustr write then false
    else check_user_buffer_loop m write ((ustr + 2 ^ 12) % WORD) size

/-- The function `syscall_check_user_buffer (ustr, size, write)`. -/
def syscall_check_user_buffer (m : UserMem) (ustr : Nat) (size : Int) (write : Bool) : Bool :=
  if !syscall_translate_vaddr m (ptr_add ustr (size - 1)) write then false
  else check_user_buffer_loop m write ustr (toUInt32 (size >>> (12 : Nat)))

/-! ## String validation -/

/-- Modelled from the spec: `PGMASK` of `threads/vaddr.h`, the mask of the
offset of an address within its page; an address with no bit of the mask set
starts a page. -/
def PGMASK : Nat := 2 ^ 12 - 1

/-- What the string validator does, in program order: a call of
`syscall_translate_vaddr` with its result, a read of one byte of user memory,
or the console message of the length limit. -/
inductive Access where
  | translate (vaddr : Nat) (ok : Bool)
  | deref (vaddr : Nat)
  | puts
deriving DecidableEq, Repr

/-- The `while (*ustr != 0)` loop of `syscall_check_user_string`; the first
argument bounds the number of iterations and `none` means it ran out. -/
def check_user_string_loop (m : UserMem) : Nat → Nat → Nat → Option (Bool × List Access)
  | 0, _, _ => none
  | fuel + 1, ustr, cnt =>
    if m.byte ustr = 0 then some (true, [Access.deref ustr])
    else if cnt = 4095 then some (false, [Access.deref ustr, Access.puts])
    else if ((ustr + 1) % WORD) &&& PGMASK = 0 then
      if !syscall_translate_vaddr m ((ustr + 1) % WORD) false then
        some (false, [Access.deref ustr, Access.translate ((ustr + 1) % WORD) false])
      else
        (check_user_string_loop m fuel ((ustr + 1) % WORD) (cnt + 1)).map
          (fun r => (r.1, Access.deref ustr :: Access.translate ((ustr + 1) % WORD) true :: r.2))
    else
      (check_user_string_loop m fuel ((ustr + 1) % WORD) (cnt + 1)).map
        (fun r => (r.1, Access.deref ustr :: r.2))

/-- The function `syscall_check_user_string (ustr)`, with its access log. -/
def syscall_check_user_string (m : UserMem) (ustr : Nat) : Option (Bool × List Access) :=
  if !syscall_translate_vaddr m ustr false then some (false, [Access.translate ustr false])
  else (check_user_string_loop m 4096 ustr 0).map
    (fun r => (r.1, Access.translate ustr true :: r.2))

/-- Monitor for an access log: every byte read lies in a page that an earlier
successful `syscall_translate_vaddr` of the same log (or of `pages`, the pages
validated before the log starts) has validated. -/
def reads_validated : List Nat → List Access → Bool
  | _, [] => true
  | pages, Access.translate vaddr ok :: rest =>
    reads_validated (if ok then (vaddr / PGSIZE) :: pages else pages) rest
  | pages, Access.deref vaddr :: rest =>
    pages.contains (vaddr / PGSIZE) && reads_validated pages rest
  | pages, Access.puts :: rest => reads_validated pages rest

/-! ## Dispatcher -/

/-- The system-call numbers of `syscall-nr.h` that the dispatcher names. -/
inductive SysNr where
  | SYS_HALT | SYS_EXIT | SYS_EXEC | SYS_WAIT | SYS_CREATE | SYS_REMOVE | SYS_OPEN
  | SYS_FILESIZE | SYS_READ | SYS_WRITE | SYS_SEEK | SYS_TELL | SYS_CLOSE
  | SYS_CHDIR | SYS_MKDIR | SYS_READDIR | SYS_ISDIR | SYS_INUMBER
deriving DecidableEq, Repr

/-- A handler chosen by the second `switch` of `syscall_handler`, with the
argument words passed to it. -/
inductive Call where
  | syscall_halt
  | syscall_exit (return_value : Nat)
  | syscall_exec (cmd_line : Nat)
  | syscall_wait (pid : Nat)
  | syscall_tell (fd : Nat)
  | syscall_close (fd : Nat)
  | syscall_remove (name : Nat)
  | syscall_open (name : Nat)
  | syscall_filesize (fd : Nat)
  | syscall_chdir (dir : Nat)
  | syscall_mkdir (dir : Nat)
  | syscall_readdir (fd : Nat) (name : Nat)
  | syscall_isdir (fd : Nat)
  | syscall_inumber (fd : Nat)
  | syscall_create (name : Nat) (initial_size : Nat)
  | syscall_seek (fd : Nat) (position : Nat)
  | syscall_read (fd : Nat) (buffer : Nat) (size : Nat)
  | syscall_write (fd : Nat) (buffer : Nat) (size : Nat)
deriving DecidableEq, Repr

/-- Result of the dispatcher: the process is terminated through
`thread_exit_with_return_value`, or one handler is invoked. -/
inductive Dispatch where
  | killed (status : Int)
  | invoke (c : Call)
deriving DecidableEq, Repr

/-- A 32-bit little-endian load from user memory, as `*((int *) p)`. -/
def load32 (m : UserMem) (p : Nat) : Nat :=
  (m.byte p).val + 256 * (m.byte ((p + 1) % WORD)).val
    + 65536 * (m.byte ((p + 2) % WORD)).val + 16777216 * (m.byte ((p + 3) % WORD)).val

/-- The first `switch` of `syscall_handler`: the argument-region check, sized
by the call number; `true` when the handler may go on. -/
def syscall_handler_args (m : UserMem) (call_num : Option SysNr) (arg1 : Nat) : Bool :=
  match call_num with
  | some SysNr.SYS_EXIT | some SysNr.SYS_EXEC | some SysNr.SYS_WAIT | some SysNr.SYS_TELL
  | some SysNr.SYS_CLOSE | some SysNr.SYS_REMOVE | some SysNr.SYS_OPEN
  | some SysNr.SYS_FILESIZE | some SysNr.SYS_CHDIR | some SysNr.SYS_MKDIR
  | some SysNr.SYS_ISDIR | some SysNr.SYS_INUMBER =>
    syscall_check_user_buffer m arg1 4 false
  | some SysNr.SYS_CREATE | some SysNr.SYS_SEEK | some SysNr.SYS_READDIR =>
    syscall_check_user_buffer m arg1 8 false
  | some SysNr.SYS_READ | some SysNr.SYS_WRITE =>
    syscall_check_user_buffer m arg1 12 false
  | _ => true

/-- The function `syscall_handler`, up to the choice of the handler.  `nr`
tells which named call number, if any, a 32-bit value is. -/
def syscall_handler (m : UserMem) (nr : Nat → Option SysNr) (esp : Nat) : Dispatch :=
  if !syscall_check_user_buffer m esp 4 false then Dispatch.killed (-1)
  else
    let call_num := nr (load32 m esp)
    let arg1 := ptr_add esp 4
    let arg2 := ptr_add esp 8
    let arg3 := ptr_add esp 12
    if !syscall_handler_args m call_num arg1 then Dispatch.killed (-1)
    else
      match call_num with
      | some SysNr.SYS_HALT => Dispatch.invoke Call.syscall_halt
      | some SysNr.SYS_EXIT => Dispatch.invoke (Call.syscall_exit (load32 m arg1))
      | some SysNr.SYS_EXEC => Dispatch.invoke (Call.syscall_exec (load32 m arg1))
      | some SysNr.SYS_WAIT => Dispatch.invoke (Call.syscall_wait (load32 m arg1))
      | some SysNr.SYS_TELL => Dispatch.invoke (Call.syscall_tell (load32 m arg1))
      | some SysNr.SYS_CLOSE => Dispatch.invoke (Call.syscall_close (load32 m arg1))
      | some SysNr.SYS_REMOVE => Dispatch.invoke (Call.syscall_remove (load32 m arg1))
      | some SysNr.SYS_OPEN => Dispatch.invoke (Call.syscall_open (load32 m arg1))
      | some SysNr.SYS_FILESIZE => Dispatch.invoke (Call.syscall_filesize (load32 m arg1))
      | some SysNr.SYS_CHDIR => Dispatch.invoke (Call.syscall_chdir (load32 m arg1))
      | some SysNr.SYS_MKDIR => Dispatch.invoke (Call.syscall_mkdir (load32 m arg1))
      | some SysNr.SYS_READDIR =>
        Dispatch.invoke (Call.syscall_readdir (load32 m arg1) (load32 m arg2))
      | some SysNr.SYS_ISDIR => Dispatch.invoke (Call.syscall_isdir (load32 m arg1))
      | some SysNr.SYS_INUMBER => Dispatch.invoke (Call.syscall_inumber (load32 m arg1))
      | some SysNr.SYS_CREATE =>
        Dispatch.invoke (Call.syscall_create (load32 m arg1) (load32 m arg2))
      | some SysNr.SYS_SEEK =>
        Dispatch.invoke (Call.syscall_seek (load32 m arg1) (load32 m arg2))
      | some SysNr.SYS_READ =>
        Dispatch.invoke (Call.syscall_read (load32 m arg1) (load32 m arg2) (load32 m arg3))
      | some SysNr.SYS_WRITE =>
        Dispatch.invoke (Call.syscall_write (load32 m arg1) (load32 m arg2) (load32 m arg3))
      | none => Dispatch.killed (-1)

/-- The argument words of an invocation, in order. -/
def Call.args : Call → List Nat
  | Call.syscall_halt => []
  | Call.syscall_exit a | Call.syscall_exec a | Call.syscall_wait a | Call.syscall_remove a
  | Call.syscall_open a | Call.syscall_filesize a | Call.syscall_tell a
  | Call.syscall_close a | Call.syscall_chdir a | Call.syscall_mkdir a
  | Call.syscall_isdir a | Call.syscall_inumber a => [a]
  | Call.syscall_create a b | Call.syscall_seek a b | Call.syscall_readdir a b => [a, b]
  | Call.syscall_read a b c | Call.syscall_write a b c => [a, b, c]

/-! ## Handle registry and handlers -/

/-- Modelled from the spec: descriptor 0 is standard input (`STDIN_FILENO` of
`lib/stdio.h`). -/
def STDIN_FILENO : Nat := 0

/-- Modelled from the spec: descriptor 1 is standard output (`STDOUT_FILENO` of
`lib/stdio.h`). -/
def STDOUT_FILENO : Nat := 1

/-- Modelled from the spec: the record `struct file_handle` (declared in
`threads/thread.h`), with the descriptor, the open file object and, for a
directory, the directory view. -/
structure file_handle where
  fd : Nat
  opened_file : Nat
  opened_dir : Option Nat
deriving DecidableEq, Repr

/-- A call that leaves `syscall.c`, or a lock operation, in program order. -/
inductive Event where
  | lock_acquire
  | lock_release
  | filesys_open (name : Nat)
  | file_get_inode (file : Nat)
  | inode_isdir (file : Nat)
  | inode_reopen (file : Nat)
  | dir_open (file : Nat)
  | dir_close (dir : Option Nat)
  | file_close (file : Nat)
  | file_length (file : Nat)
  | file_read (file : Nat) (buffer : Nat) (size : Nat)
  | file_write (file : Nat) (buffer : Nat) (size : Nat)
  | file_seek (file : Nat) (position : Nat)
  | file_tell (file : Nat)
  | is_dirfile (fd : Nat)
  | dir_readdir (dir : Option Nat) (name : Nat)
  | inode_get_inumber (file : Nat)
  | input_getc
  | store (vaddr : Nat)
  | putbuf (buffer : Nat) (size : Nat)
  | malloc
  | free
  | shutdown_power_off
  | message_to_grandpa (return_value : Nat)
  | process_execute (cmd_line : Nat)
  | sema_down (tid : Nat)
  | process_wait (pid : Nat)
  | filesys_create (name : Nat) (initial_size : Nat)
  | filesys_remove (name : Nat)
  | strlen (str : Nat)
  | is_rootpath (dir : Nat)
  | path_paser (dir : Nat)
  | subdir_lookup (target_dir : Nat) (dir : Nat)
  | subdir_create (target_dir : Nat) (dir : Nat)
  | dir_open_root
deriving DecidableEq, Repr

/-- Modelled from the spec: the underlying file system as an opaque service.
The fields are its answers (and that of the helper `is_dirfile`) to the calls a
handler makes; their code is outside `syscall.c`. -/
structure Filesys where
  filesys_open : Nat → Option Nat
  inode_isdir : Nat → Bool
  dir_open : Nat → Option Nat
  file_length : Nat → Nat
  file_tell : Nat → Nat
  file_read : Nat → Nat → Nat → Nat
  file_write : Nat → Nat → Nat → Nat
  is_dirfile : file_handle → Bool
  dir_readdir : Option Nat → Nat → Bool
  inode_get_inumber : Nat → Nat

/-- The kernel state a handler works on: the static counter `fd_next` of
`syscall_open`, the handle list of the current thread, the return slot
`f->eax`, and the log of outside calls made so far. -/
structure Kernel where
  fd_next : Nat
  file_list : List file_handle
  eax : Nat
  trace : List Event
deriving DecidableEq

/-- State at boot: `static uint32_t fd_next = 2` and no handle. -/
def Kernel.init (eax : Nat) : Kernel :=
  { fd_next := 2, file_list := [], eax := eax, trace := [] }

/-- Appends events to the log. -/
def Kernel.log (k : Kernel) (es : List Event) : Kernel :=
  { k with trace := k.trace ++ es }

/-- Modelled from the spec: `thread_exit_with_return_value (f, status)` (in
`threads/thread.c`) terminates the calling process with the status and does not
return.  A handler so ends in one of two ways: it returns to the caller, or the
process is torn down. -/
inductive Outcome where
  | returned (k : Kernel)
  | exited (status : Int) (k : Kernel)
deriving DecidableEq

/-- Modelled from the spec: `syscall_get_file_handle (fd)` (in
`threads/thread.c`) looks the descriptor up in the handle list of the current
thread; `none` stands for `NULL`. -/
def syscall_get_file_handle (k : Kernel) (fd : Nat) : Option file_handle :=
  k.file_list.find? (fun h => h.fd == fd)

/-- Modelled from the spec: `thread_file_list_inster (handle)` (in
`threads/thread.c`) inserts the handle into the list of the current thread. -/
def thread_file_list_inster (k : Kernel) (handle : file_handle) : Kernel :=
  { k with file_list := k.file_list ++ [handle] }

/-- The function `syscall_open (f, name)`. -/
def syscall_open (m : UserMem) (fs : Filesys) (k : Kernel) (name : Nat) : Outcome :=
  match syscall_check_user_string m name with
  | some (true, _) =>
    let k1 := k.log [Event.lock_acquire, Event.filesys_open name, Event.lock_release]
    match fs.filesys_open name with
    | none => Outcome.returned { k1 with eax := toUInt32 (-1) }
    | some tmp_file =>
      let k2 := { k1.log [Event.malloc] with fd_next := (k1.fd_next + 1) % WORD }
      let fd := k1.fd_next
      let k3 := k2.log [Event.file_get_inode tmp_file, Event.inode_isdir tmp_file]
      if fs.inode_isdir tmp_file then
        let k4 := k3.log [Event.file_get_inode tmp_file, Event.inode_reopen tmp_file,
          Event.dir_open tmp_file]
        let handle : file_handle :=
          { fd := fd, opened_file := tmp_file, opened_dir := fs.dir_open tmp_file }
        Outcome.returned { thread_file_list_inster k4 handle with eax := fd }
      else
        let handle : file_handle := { fd := fd, opened_file := tmp_file, opened_dir := none }
        Outcome.returned { thread_file_list_inster k3 handle with eax := fd }
  | _ => Outcome.exited (-1) k

/-- The function `syscall_filesize (f, fd)`. -/
def syscall_filesize (fs : Filesys) (k : Kernel) (fd : Nat) : Outcome :=
  match syscall_get_file_handle k fd with
  | some t =>
    Outcome.returned
      { k.log [Event.lock_acquire, Event.file_length t.opened_file, Event.lock_release] with
        eax := fs.file_length t.opened_file % WORD }
  | none => Outcome.exited (-1) k

/-- The loop `while (size-- != 0) *str++ = input_getc ();` of `syscall_read`. -/
def read_stdin_loop : Nat → Nat → List Event
  | 0, _ => []
  | size + 1, str => Event.input_getc :: Event.store str :: read_stdin_loop size ((str + 1) % WORD)

/-- The function `syscall_read (f, fd, buffer, size)`. -/
def syscall_read (m : UserMem) (fs : Filesys) (k : Kernel) (fd buffer size : Nat) : Outcome :=
  if !syscall_check_user_buffer m buffer (toInt32 size) true then Outcome.exited (-1) k
  else if fd = STDOUT_FILENO then Outcome.exited (-1) k
  else if fd = STDIN_FILENO then Outcome.returned (k.log (read_stdin_loop size buffer))
  else
    match syscall_get_file_handle k fd with
    | some t =>
      let k1 := k.log [Event.file_get_inode t.opened_file, Event.inode_isdir t.opened_file]
      if !fs.inode_isdir t.opened_file then
        Outcome.returned
          { k1.log [Event.lock_acquire, Event.file_read t.opened_file buffer size,
              Event.lock_release] with
            eax := fs.file_read t.opened_file buffer size % WORD }
      else Outcome.exited (-1) k1
    | none => Outcome.exited (-1) k

/-- The function `syscall_write (f, fd, buffer, size)`. -/
def syscall_write (m : UserMem) (fs : Filesys) (k : Kernel) (fd buffer size : Nat) : Outcome :=
  if !syscall_check_user_buffer m buffer (toInt32 size) false then Outcome.exited (-1) k
  else if fd = STDIN_FILENO then Outcome.exited (-1) k
  else if fd = STDOUT_FILENO then Outcome.returned (k.log [Event.putbuf buffer size])
  else
    match syscall_get_file_handle k fd with
    | some t =>
      let k1 := k.log [Event.file_get_inode t.opened_file, Event.inode_isdir t.opened_file]
      if !fs.inode_isdir t.opened_file then
        Outcome.returned
          { k1.log [Event.lock_acquire, Event.file_write t.opened_file buffer size,
              Event.lock_release] with
            eax := fs.file_write t.opened_file buffer size % WORD }
      else Outcome.exited (-1) k1
    | none => Outcome.exited (-1) k

/-- The function `syscall_seek (f, fd, position)`. -/
def syscall_seek (k : Kernel) (fd position : Nat) : Outcome :=
  match syscall_get_file_handle k fd with
  | some t =>
    Outcome.returned
      (k.log [Event.lock_acquire, Event.file_seek t.opened_file position, Event.lock_release])
  | none => Outcome.exited (-1) k

/-- The function `syscall_tell (f, fd)`. -/
def syscall_tell (fs : Filesys) (k : Kernel) (fd : Nat) : Outcome :=
  match syscall_get_file_handle k fd with
  | some t =>
    let k1 := k.log [Event.file_get_inode t.opened_file, Event.inode_isdir t.opened_file]
    if !fs.inode_isdir t.opened_file then
      Outcome.returned
        { k1.log [Event.lock_acquire, Event.file_tell t.opened_file, Event.lock_release] with
          eax := fs.file_tell t.opened_file % WORD }
    else Outcome.exited (-1) k1
  | none => Outcome.exited (-1) k

/-- The function `syscall_close (f, fd)`; `list_remove` takes the handle found
out of the list. -/
def syscall_close (fs : Filesys) (k : Kernel) (fd : Nat) : Outcome :=
  match syscall_get_file_handle k fd with
  | some t =>
    let k1 := k.log [Event.lock_acquire, Event.file_get_inode t.opened_file,
      Event.inode_isdir t.opened_file]
    let k2 := if fs.inode_isdir t.opened_file then k1.log [Event.dir_close t.opened_dir] else k1
    let k3 := k2.log [Event.file_close t.opened_file, Event.lock_release, Event.free]
    Outcome.returned { k3 with file_list := k3.file_list.erase t }
  | none => Outcome.exited (-1) k

/-- The function `syscall_readdir (f, fd, name)`; `READDIR_MAX_LEN` is a
constant of `lib/user/syscall.h`, taken as a parameter. -/
def syscall_readdir (READDIR_MAX_LEN : Nat) (m : UserMem) (fs : Filesys) (k : Kernel)
    (fd name : Nat) : Outcome :=
  if fd = 0 ∨ fd = 1 ∨
      !syscall_check_user_buffer m name (toInt32 (READDIR_MAX_LEN + 1)) false then
    Outcome.returned { k with eax := 0 }
  else
    match syscall_get_file_handle k fd with
    | some fh =>
      let k1 := k.log [Event.is_dirfile fh.fd]
      if fs.is_dirfile fh then
        Outcome.returned
          { k1.log [Event.dir_readdir fh.opened_dir name] with
            eax := (fs.dir_readdir fh.opened_dir name).toNat }
      else Outcome.returned { k1 with eax := 0 }
    | none => Outcome.returned { k with eax := 0 }

/-- The function `syscall_isdir (f, fd)`. -/
def syscall_isdir (fs : Filesys) (k : Kernel) (fd : Nat) : Outcome :=
  if fd = 0 ∨ fd = 1 then Outcome.returned { k with eax := 0 }
  else
    match syscall_get_file_handle k fd with
    | some fh =>
      Outcome.returned { k.log [Event.is_dirfile fh.fd] with eax := (fs.is_dirfile fh).toNat }
    | none => Outcome.returned { k with eax := 0 }

/-- The function `syscall_inumber (f, fd)`. -/
def syscall_inumber (fs : Filesys) (k : Kernel) (fd : Nat) : Outcome :=
  if fd = 0 ∨ fd = 1 then Outcome.exited (-1) k
  else
    match syscall_get_file_handle k fd with
    | some fh =>
      Outcome.returned
        { k.log [Event.file_get_inode fh.opened_file, Event.inode_get_inumber fh.opened_file] with
          eax := fs.inode_get_inumber fh.opened_file % WORD }
    | none => Outcome.returned { k with eax := toUInt32 (-1) }

/-! ## Process handlers and directory handlers -/

/-- Modelled from the spec: the record `struct child_message` (the mailbox of a
parent/child pair, declared in `threads/thread.h`), with the fields that
`syscall_exec` reads. -/
structure child_message where
  tid : Nat
  load_failed : Bool
deriving DecidableEq, Repr

/-- Modelled from the spec: the process subsystem as an opaque service.
`process_execute` and `process_wait` are its answers, `child_list` is the child
list of the current thread as `syscall_exec` finds it after `process_execute`,
and `grandpa_died` the liveness flag of the current thread. -/
structure Process where
  process_execute : Nat → Nat
  child_list : List child_message
  process_wait : Nat → Nat
  grandpa_died : Bool

/-- Modelled from the spec: the answers of the path resolver and of the
directory layer to the calls of `syscall_create`, `syscall_remove`,
`syscall_chdir` and `syscall_mkdir`; their code is outside `syscall.c`.
`path_paser` gives the containing directory when the resolution succeeds. -/
structure Paths where
  filesys_create : Nat → Nat → Bool
  filesys_remove : Nat → Bool
  is_rootpath : Nat → Bool
  path_paser : Nat → Option Nat
  subdir_lookup : Nat → Nat → Option Nat
  subdir_create : Nat → Nat → Bool
  dir_open_root : Option Nat

/-- The function `syscall_halt (f)`: `shutdown_power_off` does not return; the
result is the state when the machine goes down. -/
def syscall_halt (k : Kernel) : Kernel :=
  k.log [Event.shutdown_power_off]

/-- The function `syscall_exit (f, return_value)`. -/
def syscall_exit (ps : Process) (k : Kernel) (return_value : Nat) : Outcome :=
  if !ps.grandpa_died then
    Outcome.exited (toInt32 return_value) (k.log [Event.message_to_grandpa return_value])
  else Outcome.exited (toInt32 return_value) k

/-- The function `syscall_exec (f, cmd_line)`. -/
def syscall_exec (m : UserMem) (ps : Process) (k : Kernel) (cmd_line : Nat) : Outcome :=
  match syscall_check_user_string m cmd_line with
  | some (true, _) =>
    let k1 :=
      { k.log [Event.lock_acquire, Event.process_execute cmd_line, Event.lock_release] with
        eax := ps.process_execute cmd_line % WORD }
    match ps.child_list.find? (fun l => l.tid == k1.eax) with
    | some l =>
      let k2 := k1.log [Event.sema_down l.tid]
      if l.load_failed then Outcome.returned { k2 with eax := toUInt32 (-1) }
      else Outcome.returned k2
    | none => Outcome.returned k1
  | _ => Outcome.exited (-1) k

/-- The function `syscall_wait (f, pid)`. -/
def syscall_wait (ps : Process) (k : Kernel) (pid : Nat) : Outcome :=
  Outcome.returned { k.log [Event.process_wait pid] with eax := ps.process_wait pid % WORD }

/-- The function `syscall_create (f, name, initial_size)`. -/
def syscall_create (m : UserMem) (pa : Paths) (k : Kernel) (name initial_size : Nat) :
    Outcome :=
  match syscall_check_user_string m name with
  | some (true, _) =>
    Outcome.returned
      { k.log [Event.lock_acquire, Event.filesys_create name initial_size,
          Event.lock_release] with
        eax := (pa.filesys_create name initial_size).toNat }
  | _ => Outcome.exited (-1) k

/-- The function `syscall_remove (f, name)`. -/
def syscall_remove (m : UserMem) (pa : Paths) (k : Kernel) (name : Nat) : Outcome :=
  match syscall_check_user_string m name with
  | some (true, _) =>
    Outcome.returned
      { k.log [Event.lock_acquire, Event.filesys_remove name, Event.lock_release] with
        eax := (pa.filesys_remove name).toNat }
  | _ => Outcome.exited (-1) k

/-- The test `!syscall_check_user_string (dir) || strlen (dir) == 0` that opens
`syscall_chdir` and `syscall_mkdir`, with the events it adds: `strlen` runs
only on a validated string, and is 0 when the first byte is NUL. -/
def dir_arg_rejected (m : UserMem) (dir : Nat) : Bool × List Event :=
  match syscall_check_user_string m dir with
  | some (true, _) => (decide (m.byte dir = 0), [Event.strlen dir])
  | _ => (true, [])

/-- The function `syscall_chdir (f, dir)`; the second component is
`cur->current_dir` after the call. -/
def syscall_chdir (m : UserMem) (pa : Paths) (current_dir : Option Nat) (k : Kernel)
    (dir : Nat) : Outcome × Option Nat :=
  if (dir_arg_rejected m dir).1 then
    (Outcome.returned { k.log (dir_arg_rejected m dir).2 with eax := 0 }, current_dir)
  else
    let k1 := k.log ((dir_arg_rejected m dir).2 ++ [Event.malloc, Event.is_rootpath dir])
    if pa.is_rootpath dir then
      (Outcome.returned
        { k1.log [Event.dir_close current_dir, Event.dir_open_root, Event.free] with eax := 1 },
        pa.dir_open_root)
    else
      let k2 := k1.log [Event.path_paser dir]
      match pa.path_paser dir with
      | some target_dir =>
        let k3 := k2.log [Event.subdir_lookup target_dir dir]
        match pa.subdir_lookup target_dir dir with
        | some res =>
          (Outcome.returned
            { k3.log [Event.dir_close current_dir, Event.dir_close (some target_dir),
                Event.free] with eax := 1 },
            some res)
        | none =>
          (Outcome.returned
            { k3.log [Event.dir_close (some target_dir), Event.free] with eax := 0 },
            current_dir)
      | none => (Outcome.returned { k2.log [Event.free] with eax := 0 }, current_dir)

/-- The function `syscall_mkdir (f, dir)`. -/
def syscall_mkdir (m : UserMem) (pa : Paths) (k : Kernel) (dir : Nat) : Outcome :=
  if (dir_arg_rejected m dir).1 then
    Outcome.returned { k.log (dir_arg_rejected m dir).2 with eax := 0 }
  else
    let k1 := k.log ((dir_arg_rejected m dir).2 ++ [Event.malloc, Event.is_rootpath dir])
    if pa.is_rootpath dir then Outcome.returned { k1.log [Event.free] with eax := 0 }
    else
      let k2 := k1.log [Event.path_paser dir]
      match pa.path_paser dir with
      | some target_dir =>
        Outcome.returned
          { k2.log [Event.subdir_create target_dir dir, Event.dir_close (some target_dir),
              Event.free] with
            eax := (pa.subdir_create target_dir dir).toNat }
      | none => Outcome.returned { k2.log [Event.free] with eax := 0 }

end Pintos

namespace Pintos

/-! ## Specification tables and example data -/

/-- Number of argument words of a system call, as the specification lists
them: none for halt, one for exit, exec, wait, remove, open, filesize, tell,
close, chdir, mkdir, isdir and inumber, two for create, seek and readdir, three
for read and write. -/
def SysNr.words : SysNr → Nat
  | SysNr.SYS_HALT => 0
  | SysNr.SYS_EXIT | SysNr.SYS_EXEC | SysNr.SYS_WAIT | SysNr.SYS_REMOVE | SysNr.SYS_OPEN
  | SysNr.SYS_FILESIZE | SysNr.SYS_TELL | SysNr.SYS_CLOSE | SysNr.SYS_CHDIR
  | SysNr.SYS_MKDIR | SysNr.SYS_ISDIR | SysNr.SYS_INUMBER => 1
  | SysNr.SYS_CREATE | SysNr.SYS_SEEK | SysNr.SYS_READDIR => 2
  | SysNr.SYS_READ | SysNr.SYS_WRITE => 3

/-- The system call a handler belongs to. -/
def Call.nr : Call → SysNr
  | Call.syscall_halt => SysNr.SYS_HALT
  | Call.syscall_exit _ => SysNr.SYS_EXIT
  | Call.syscall_exec _ => SysNr.SYS_EXEC
  | Call.syscall_wait _ => SysNr.SYS_WAIT
  | Call.syscall_tell _ => SysNr.SYS_TELL
  | Call.syscall_close _ => SysNr.SYS_CLOSE
  | Call.syscall_remove _ => SysNr.SYS_REMOVE
  | Call.syscall_open _ => SysNr.SYS_OPEN
  | Call.syscall_filesize _ => SysNr.SYS_FILESIZE
  | Call.syscall_chdir _ => SysNr.SYS_CHDIR
  | Call.syscall_mkdir _ => SysNr.SYS_MKDIR
  | Call.syscall_readdir _ _ => SysNr.SYS_READDIR
  | Call.syscall_isdir _ => SysNr.SYS_ISDIR
  | Call.syscall_inumber _ => SysNr.SYS_INUMBER
  | Call.syscall_create _ _ => SysNr.SYS_CREATE
  | Call.syscall_seek _ _ => SysNr.SYS_SEEK
  | Call.syscall_read _ _ _ => SysNr.SYS_READ
  | Call.syscall_write _ _ _ => SysNr.SYS_WRITE

/-- One call of a sequence of `open` and `close` calls, with the user memory
and the answers of the file system at the time of the call. -/
inductive FdOp where
  | do_open (m : UserMem) (fs : Filesys) (name : Nat)
  | do_close (fs : Filesys) (fd : Nat)

/-- Runs the handler of one call. -/
def FdOp.step (k : Kernel) : FdOp → Outcome
  | FdOp.do_open m fs name => syscall_open m fs k name
  | FdOp.do_close fs fd => syscall_close fs k fd

/-- Tells the `open` calls from the `close` calls. -/
def FdOp.is_open : FdOp → Bool
  | FdOp.do_open _ _ _ => true
  | FdOp.do_close _ _ => false

/-- Runs a sequence of `open` and `close` calls of one process and collects,
in order, the descriptors returned by the successful opens, those that put a
handle into the registry.  The run ends when a call terminates the process. -/
def run_fd_ops : Kernel → List FdOp → Kernel × List Nat
  | k, [] => (k, [])
  | k, op :: ops =>
    match op.step k with
    | Outcome.exited _ k1 => (k1, [])
    | Outcome.returned k1 =>
      if op.is_open && decide (k.file_list.length < k1.file_list.length) then
        ((run_fd_ops k1 ops).1, k1.eax :: (run_fd_ops k1 ops).2)
      else run_fd_ops k1 ops

/-- A sequence of `n` rounds, each an `open` followed by the `close` of the
descriptor that this open returns when `fd_next` is `d` at the start of the
first round; between two rounds no handle of these opens stays open. -/
def open_close_cycles (m : UserMem) (fs : Filesys) (name : Nat) : Nat → Nat → List FdOp
  | 0, _ => []
  | n + 1, d =>
    FdOp.do_open m fs name :: FdOp.do_close fs d ::
      open_close_cycles m fs name n ((d + 1) % WORD)

/-- Example address space: user/kernel limit `0xc0000000`, pages `0x8048`
(read-only) and `0x8049` (writable) mapped, every byte `65` except a NUL at
`0x8049002`. -/
def exMem : UserMem :=
  { PHYS_BASE := 0xc0000000
    present := fun p => p == 0x8048 || p == 0x8049
    writable := fun p => p == 0x8049
    byte := fun a => if a == 0x8049002 then 0 else 65 }

/-- Example file system: every name opens as the regular file `7`, of length
42 and position 3, and every transfer moves the whole buffer. -/
def exFs : Filesys :=
  { filesys_open := fun _ => some 7
    inode_isdir := fun _ => false
    dir_open := fun _ => none
    file_length := fun _ => 42
    file_tell := fun _ => 3
    file_read := fun _ _ size => size
    file_write := fun _ _ size => size
    is_dirfile := fun _ => false
    dir_readdir := fun _ _ => false
    inode_get_inumber := fun _ => 9 }

/-- Example file system in which every open object is a directory. -/
def exFsDir : Filesys :=
  { exFs with inode_isdir := fun _ => true, dir_open := fun _ => some 8,
              is_dirfile := fun _ => true }

/-- Example numbering of the system calls (that of the Pintos distribution). -/
def exNr (n : Nat) : Option SysNr :=
  [SysNr.SYS_HALT, SysNr.SYS_EXIT, SysNr.SYS_EXEC, SysNr.SYS_WAIT, SysNr.SYS_CREATE,
    SysNr.SYS_REMOVE, SysNr.SYS_OPEN, SysNr.SYS_FILESIZE, SysNr.SYS_READ, SysNr.SYS_WRITE,
    SysNr.SYS_SEEK, SysNr.SYS_TELL, SysNr.SYS_CLOSE].get? n

/-- Example address space with one stack page; at `0xbfffff00` it holds the
frame of `write (1, 0xbfffff20, 5)`. -/
def exStack : UserMem :=
  { PHYS_BASE := 0xc0000000
    present := fun p => p == 0xbffff
    writable := fun p => p == 0xbffff
    byte := fun a =>
      if a < 0xbfffff00 then 0
      else ([9, 0, 0, 0, 1, 0, 0, 0, 0x20, 0xff, 0xff, 0xbf, 5, 0, 0, 0] :
        List (Fin 256)).getD (a - 0xbfffff00) 0 }

/-! ## Every handler, and the lock monitors -/

/-- What surrounds one call of a handler: the user memory, the answers of the
collaborators, the constant `READDIR_MAX_LEN` and the current directory of the
calling thread. -/
structure Env where
  m : UserMem
  fs : Filesys
  ps : Process
  pa : Paths
  READDIR_MAX_LEN : Nat
  current_dir : Option Nat

/-- How a handler ends: it returns to the caller, the process is terminated
through `thread_exit_with_return_value`, or the machine is powered off. -/
inductive Ending where
  | returned
  | exited (status : Int)
  | powered_off
deriving DecidableEq, Repr

/-- Splits an outcome into the way the handler ended and the final state. -/
def Outcome.ending : Outcome → Ending × Kernel
  | Outcome.returned k => (Ending.returned, k)
  | Outcome.exited status k => (Ending.exited status, k)

/-- Runs the handler that the dispatcher chose, as the second `switch` of
`syscall_handler` calls it. -/
def run_handler (e : Env) (k : Kernel) : Call → Ending × Kernel
  | Call.syscall_halt => (Ending.powered_off, syscall_halt k)
  | Call.syscall_exit return_value => (syscall_exit e.ps k return_value).ending
  | Call.syscall_exec cmd_line => (syscall_exec e.m e.ps k cmd_line).ending
  | Call.syscall_wait pid => (syscall_wait e.ps k pid).ending
  | Call.syscall_tell fd => (syscall_tell e.fs k fd).ending
  | Call.syscall_close fd => (syscall_close e.fs k fd).ending
  | Call.syscall_remove name => (syscall_remove e.m e.pa k name).ending
  | Call.syscall_open name => (syscall_open e.m e.fs k name).ending
  | Call.syscall_filesize fd => (syscall_filesize e.fs k fd).ending
  | Call.syscall_chdir dir => (syscall_chdir e.m e.pa e.current_dir k dir).1.ending
  | Call.syscall_mkdir dir => (syscall_mkdir e.m e.pa k dir).ending
  | Call.syscall_readdir fd name =>
    (syscall_readdir e.READDIR_MAX_LEN e.m e.fs k fd name).ending
  | Call.syscall_isdir fd => (syscall_isdir e.fs k fd).ending
  | Call.syscall_inumber fd => (syscall_inumber e.fs k fd).ending
  | Call.syscall_create name initial_size =>
    (syscall_create e.m e.pa k name initial_size).ending
  | Call.syscall_seek fd position => (syscall_seek k fd position).ending
  | Call.syscall_read fd buffer size => (syscall_read e.m e.fs k fd buffer size).ending
  | Call.syscall_write fd buffer size => (syscall_write e.m e.fs k fd buffer size).ending

/-- The events one handler call adds to the log. -/
def handler_events (e : Env) (k : Kernel) (c : Call) : List Event :=
  (run_handler e k c).2.trace.drop k.trace.length

/-- Monitor of the lock discipline over a sequence of events.  The first
argument tells whether the caller holds the file-system lock; the result is
`none` when the lock is acquired while held or released while free, and
otherwise tells whether the lock is held at the end. -/
def lock_walk : Bool → List Event → Option Bool
  | held, [] => some held
  | held, Event.lock_acquire :: rest => if held then none else lock_walk true rest
  | held, Event.lock_release :: rest => if held then lock_walk false rest else none
  | held, _ :: rest => lock_walk held rest

/-- The calls into the underlying file system, as the specification names
them: `filesys_*`, `file_*`, `inode_*`, `dir_*`, `subdir_*` and `path_paser`. -/
def Event.is_fs_call : Event → Bool
  | Event.filesys_open _ | Event.filesys_create _ _ | Event.filesys_remove _ => true
  | Event.file_get_inode _ | Event.file_close _ | Event.file_length _
  | Event.file_read _ _ _ | Event.file_write _ _ _ | Event.file_seek _ _
  | Event.file_tell _ => true
  | Event.inode_isdir _ | Event.inode_reopen _ | Event.inode_get_inumber _ => true
  | Event.dir_open _ | Event.dir_close _ | Event.dir_readdir _ _ | Event.dir_open_root => true
  | Event.subdir_lookup _ _ | Event.subdir_create _ _ => true
  | Event.path_paser _ => true
  | _ => false

/-- Monitor of the lock coverage over a sequence of events: every call into
the file system that `exempt` does not set aside is made while the caller
holds the lock.  The second argument tells whether the lock is held at the
start. -/
def fs_calls_locked (exempt : Event → Bool) : Bool → List Event → Bool
  | _, [] => true
  | _, Event.lock_acquire :: rest => fs_calls_locked exempt true rest
  | _, Event.lock_release :: rest => fs_calls_locked exempt false rest
  | held, ev :: rest =>
    (held || !ev.is_fs_call || exempt ev) && fs_calls_locked exempt held rest

/-- Example process subsystem: `process_execute` returns thread 5, whose load
succeeded. -/
def exPs : Process :=
  { process_execute := fun _ => 5
    child_list := [{ tid := 5, load_failed := false }]
    process_wait := fun _ => 0
    grandpa_died := false }

/-- Example path resolver: no path is the root, every path resolves to the
containing directory 11, in which every lookup finds directory 12 and every
creation succeeds. -/
def exPa : Paths :=
  { filesys_create := fun _ _ => true
    filesys_remove := fun _ => true
    is_rootpath := fun _ => false
    path_paser := fun _ => some 11
    subdir_lookup := fun _ _ => some 12
    subdir_create := fun _ _ => true
    dir_open_root := some 10 }

/-- Example environment of a call, built from the examples above. -/
def exEnv : Env :=
  { m := exMem, fs := exFs, ps := exPs, pa := exPa, READDIR_MAX_LEN := 14,
    current_dir := some 10 }

/-- Example environment in which every open object is a directory. -/
def exEnvDir : Env :=
  { m := exMem, fs := exFsDir, ps := exPs, pa := exPa, READDIR_MAX_LEN := 14,
    current_dir := some 10 }

/-- Example state: one open handle, descriptor 3 on file object 7. -/
def exKernel : Kernel :=
  { fd_next := 4, file_list := [{ fd := 3, opened_file := 7, opened_dir := none }],
    eax := 0xdead, trace := [] }

end Pintos

/-! # Properties -/

namespace Pintos

/-! ## Buffer validation -/

theorem translate_true_iff (m : UserMem) (x : Nat) (w : Bool) :
    syscall_translate_vaddr m x w = true ↔ x ≠ 0 ∧ x < m.PHYS_BASE ∧ m.present (x / 4096) = true := by
  unfold syscall_translate_vaddr is_user_vaddr pagedir_get_page PGSIZE
  by_cases h0 : x = 0
  · simp [h0]
  · by_cases h1 : x < m.PHYS_BASE
    · simp [h0, h1]
    · simp [h0, h1]

theorem translate_same_page (m : UserMem) (hm : m.wf) (x y : Nat) (w : Bool)
    (hx : syscall_translate_vaddr m x w = true) (hp : y / 4096 = x / 4096) (hy : y ≠ 0) :
    syscall_translate_vaddr m y w = true := by
  rw [translate_true_iff] at hx ⊢
  obtain ⟨h1, h2⟩ := hm
  unfold PGSIZE at h1
  refine ⟨hy, by omega, ?_⟩
  rw [hp]; exact hx.2.2

theorem buffer_loop_true_iff (m : UserMem) (w : Bool) (c : Nat) : ∀ ustr : Nat, ustr < WORD →
    (check_user_buffer_loop m w ustr c = true ↔
      ∀ j, j ≤ c → syscall_translate_vaddr m ((ustr + j * 4096) % WORD) w = true) := by
  induction c with
  | zero =>
    intro ustr hu
    simp only [check_user_buffer_loop]
    constructor
    · intro h j hj
      have hj0 : j = 0 := by omega
      subst hj0
      rw [Nat.zero_mul, Nat.add_zero, Nat.mod_eq_of_lt hu]
      cases ht : syscall_translate_vaddr m ustr w
      · simp [ht] at h
      · rfl
    · intro h
      have h0 := h 0 (Nat.le_refl 0)
      rw [Nat.zero_mul, Nat.add_zero, Nat.mod_eq_of_lt hu] at h0
      simp [h0]
  | succ c ih =>
    intro ustr hu
    simp only [check_user_buffer_loop]
    have hlt : (ustr + 2 ^ 12) % WORD < WORD := Nat.mod_lt _ (by unfold WORD; norm_num)
    have hshift : ∀ j, (((ustr + 2 ^ 12) % WORD) + j * 4096) % WORD = (ustr + (j + 1) * 4096) % WORD := by
      intro j
      unfold WORD
      omega
    constructor
    · intro h j hj
      cases ht : syscall_translate_vaddr m ustr w
      · simp [ht] at h
      · simp only [ht, Bool.not_true, Bool.false_eq_true, if_false] at h
        rcases Nat.eq_zero_or_pos j with hj0 | hjpos
        · subst hj0
          rw [Nat.zero_mul, Nat.add_zero, Nat.mod_eq_of_lt hu]; exact ht
        · have := (ih _ hlt).1 h (j - 1) (by omega)
          rw [hshift] at this
          have e : j - 1 + 1 = j := by omega
          rw [e] at this; exact this
    · intro h
      have h0 := h 0 (Nat.zero_le _)
      rw [Nat.zero_mul, Nat.add_zero, Nat.mod_eq_of_lt hu] at h0
      simp only [h0, Bool.not_true, Bool.false_eq_true, if_false]
      refine (ih _ hlt).2 ?_
      intro j hj
      rw [hshift]
      exact h (j + 1) (by omega)

theorem toInt32_small (n : Nat) (h : n < 2 ^ 31) : toInt32 n = (n : Int) := by
  unfold toInt32 WORD
  have : n % 2 ^ 32 = n := Nat.mod_eq_of_lt (by omega)
  rw [this, if_pos h]

theorem toInt32_big (n : Nat) (h1 : 2 ^ 31 ≤ n) (h2 : n < 2 ^ 32) :
    toInt32 n = (n : Int) - 2 ^ 32 := by
  unfold toInt32 WORD
  have : n % 2 ^ 32 = n := Nat.mod_eq_of_lt h2
  rw [this]
  have hn : ¬ n < 2 ^ 31 := by omega
  rw [if_neg hn]
  norm_num

/-- A negative `size` makes the loop walk the whole address space, which
contains the kernel pages, so the check fails. -/
theorem check_user_buffer_neg (m : UserMem) (hm : m.wf) (a : Nat) (size : Int) (w : Bool)
    (ha : a < WORD) (hs : size < 0) (hs2 : -2 ^ 31 ≤ size) :
    syscall_check_user_buffer m a size w = false := by
  cases hc : syscall_check_user_buffer m a size w
  · rfl
  · exfalso
    unfold syscall_check_user_buffer at hc
    cases ht : syscall_translate_vaddr m (ptr_add a (size - 1)) w
    · simp [ht] at hc
    · simp only [ht, Bool.not_true, Bool.false_eq_true, if_false] at hc
      rw [buffer_loop_true_iff m w _ a ha] at hc
      have hcnt : 2 ^ 20 ≤ toUInt32 (size >>> (12 : Nat)) := by
        unfold toUInt32 WORD
        rw [Int.shiftRight_eq_div_pow]
        norm_num
        omega
      have := hc (2 ^ 20 - 1 - a / 4096) (by unfold WORD at ha; omega)
      rw [translate_true_iff] at this
      obtain ⟨h1, h2⟩ := hm
      unfold PGSIZE at h1
      unfold WORD at *
      omega

theorem ptr_add_nat (a k : Nat) : ptr_add a (k : Int) = (a + k) % WORD := by
  unfold ptr_add toUInt32 WORD
  omega

theorem check_user_buffer_pos (m : UserMem) (a n : Nat) (w : Bool)
    (ha : a < WORD) (hn1 : 1 ≤ n) (hn : n < 2 ^ 31) :
    syscall_check_user_buffer m a (n : Int) w = true ↔
      (syscall_translate_vaddr m ((a + (n - 1)) % WORD) w = true ∧
        ∀ j, j ≤ n / 4096 → syscall_translate_vaddr m ((a + j * 4096) % WORD) w = true) := by
  unfold syscall_check_user_buffer
  have e1 : ptr_add a ((n : Int) - 1) = (a + (n - 1)) % WORD := by
    rw [← ptr_add_nat]; congr 1; omega
  have e2 : toUInt32 ((n : Int) >>> (12 : Nat)) = n / 4096 := by
    unfold toUInt32 WORD
    rw [Int.shiftRight_eq_div_pow]
    norm_num
    omega
  rw [e1, e2, ← buffer_loop_true_iff m w _ a ha]
  cases syscall_translate_vaddr m ((a + (n - 1)) % WORD) w <;> simp

theorem check_user_buffer_pos_sound (m : UserMem) (hm : m.wf) (a n : Nat) (w : Bool)
    (ha : a < WORD) (hn1 : 1 ≤ n) (hn : n < 2 ^ 31)
    (h : syscall_check_user_buffer m a (n : Int) w = true) :
    ∀ i, i < n → a + i < m.PHYS_BASE ∧ syscall_translate_vaddr m (a + i) w = true := by
  rw [check_user_buffer_pos m a n w ha hn1 hn] at h
  obtain ⟨hlast, hloop⟩ := h
  obtain ⟨hal, hpb⟩ := hm
  unfold PGSIZE at hal
  unfold WORD at *
  have h0 := hloop 0 (Nat.zero_le _)
  rw [Nat.zero_mul, Nat.add_zero, Nat.mod_eq_of_lt ha, translate_true_iff] at h0
  -- the span does not reach the kernel limit
  have hend : a + (n - 1) < m.PHYS_BASE := by
    by_contra hcon
    by_cases hq : (m.PHYS_BASE - a + 4095) / 4096 ≤ n / 4096
    · have := hloop _ hq
      rw [translate_true_iff] at this
      omega
    · rw [translate_true_iff] at hlast
      omega
  intro i hi
  refine ⟨by omega, ?_⟩
  by_cases hj : (a + i) / 4096 - a / 4096 ≤ n / 4096
  · have := hloop _ hj
    refine translate_same_page m ⟨hal, hpb⟩ _ _ w this ?_ (by omega)
    omega
  · refine translate_same_page m ⟨hal, hpb⟩ _ _ w hlast ?_ (by omega)
    omega

/-- C1: soundness of the buffer validator.  For every start address, every
32-bit length `n ≥ 1` (a length of `2 ^ 31` or more reaches the validator as a
negative `int`) and either access mode, if `syscall_check_user_buffer` returns
true then every byte `a + i`, `i < n`, of the span is a 32-bit address that
passes `syscall_translate_vaddr`. -/
theorem check_user_buffer_sound (m : UserMem) (hm : m.wf) (a n : Nat) (w : Bool)
    (ha : a < WORD) (hn1 : 1 ≤ n) (hn : n < WORD)
    (h : syscall_check_user_buffer m a (toInt32 n) w = true) :
    ∀ i, i < n → a + i < WORD ∧ syscall_translate_vaddr m (a + i) w = true := by
  by_cases hsmall : n < 2 ^ 31
  · rw [toInt32_small n hsmall] at h
    intro i hi
    have := check_user_buffer_pos_sound m hm a n w ha hn1 hsmall h i hi
    exact ⟨by have := hm.2; omega, this.2⟩
  · exfalso
    unfold WORD at hn
    rw [toInt32_big n (by omega) hn] at h
    rw [check_user_buffer_neg m hm a _ w ha (by omega) (by omega)] at h
    exact Bool.false_ne_true h

/-- Witness for `check_user_buffer_sound`: a four-byte buffer that straddles the
boundary between the two mapped pages of `exMem`. -/
theorem check_user_buffer_sound_witness :
    exMem.wf ∧ 0x8048ffe < WORD ∧ 1 ≤ 4 ∧ 4 < WORD ∧
      syscall_check_user_buffer exMem 0x8048ffe (toInt32 4) true = true ∧
      ∀ i, i < 4 → 0x8048ffe + i < WORD ∧
        syscall_translate_vaddr exMem (0x8048ffe + i) true = true :=
  ⟨by decide, by decide, by decide, by decide, by decide,
    check_user_buffer_sound exMem (by decide) 0x8048ffe 4 true (by decide) (by decide)
      (by decide) (by decide)⟩

/-- C2: at the failing input the validator rejects a buffer that it should
accept.  The 4096-byte buffer at `0x8049000` fills the mapped page `0x8049`
exactly (every byte lies in a mapped user page and the last byte is the last
byte of its page), the following page `0x804a` is unmapped, and
`syscall_check_user_buffer` returns false, because after checking the last
byte the loop also validates `ustr + 4096`, the first byte after the buffer;
with one byte less the same buffer is accepted. -/
theorem check_user_buffer_full_page_rejected :
    (∀ i, i < 4096 → 0x8049000 + i < exMem.PHYS_BASE ∧
      exMem.present ((0x8049000 + i) / PGSIZE) = true ∧
      syscall_translate_vaddr exMem (0x8049000 + i) false = true) ∧
    (0x8049000 + 4096 - 1) % PGSIZE = PGSIZE - 1 ∧
    exMem.present ((0x8049000 + 4096) / PGSIZE) = false ∧
    syscall_check_user_buffer exMem 0x8049000 (toInt32 4096) false = false ∧
    syscall_check_user_buffer exMem 0x8049000 (toInt32 4095) false = true ∧
    syscall_check_user_buffer exMem 0x8049000 (toInt32 4097) false = false := by
  refine ⟨?_, by decide, by decide, by decide, by decide, by decide⟩
  intro i hi
  have hp : (0x8049000 + i) / PGSIZE = 0x8049 := by unfold PGSIZE; omega
  refine ⟨by simp only [exMem]; omega, by rw [hp]; decide, ?_⟩
  rw [translate_true_iff]
  unfold PGSIZE at hp
  refine ⟨by omega, by simp only [exMem]; omega, by rw [hp]; decide⟩

/-- C3: at the failing input the pointer validator accepts a write to a
read-only page.  Page `0x8048` of `exMem` is mapped and not writable, and
`syscall_translate_vaddr` called with `write = true` on an address of that page
returns true, as does the buffer check that `syscall_read` makes for a
destination buffer there. -/
theorem translate_vaddr_ignores_write :
    exMem.present (0x8048010 / PGSIZE) = true ∧
    exMem.writable (0x8048010 / PGSIZE) = false ∧
    syscall_translate_vaddr exMem 0x8048010 true = true ∧
    syscall_check_user_buffer exMem 0x8048010 (toInt32 16) true = true := by
  decide

/-! ## String validation -/

theorem and_PGMASK (x : Nat) : x &&& PGMASK = x % 4096 := by
  unfold PGMASK
  rw [Nat.and_pow_two_sub_one_eq_mod]

theorem map_true_iff (X : Option (Bool × List Access)) (g : List Access → List Access) :
    (∃ log, X.map (fun r => (r.1, g r.2)) = some (true, log)) ↔ ∃ log, X = some (true, log) := by
  cases X with
  | none => simp
  | some r =>
    obtain ⟨b, l⟩ := r
    cases b <;> simp

theorem string_loop_total (m : UserMem) : ∀ fuel u cnt, 4096 ≤ fuel + cnt → cnt ≤ 4095 →
    ∃ r, check_user_string_loop m fuel u cnt = some r := by
  intro fuel
  induction fuel with
  | zero => intro u cnt h1 h2; omega
  | succ fuel ih =>
    intro u cnt h1 h2
    simp only [check_user_string_loop]
    split_ifs with hb hc ha ht
    · exact ⟨_, rfl⟩
    · exact ⟨_, rfl⟩
    · exact ⟨_, rfl⟩
    · obtain ⟨r, hr⟩ := ih ((u + 1) % WORD) (cnt + 1) (by omega) (by omega)
      rw [hr]; exact ⟨_, rfl⟩
    · obtain ⟨r, hr⟩ := ih ((u + 1) % WORD) (cnt + 1) (by omega) (by omega)
      rw [hr]; exact ⟨_, rfl⟩

theorem string_step (m : UserMem) (u cnt : Nat) (hb : m.byte u ≠ 0)
    (htu : syscall_translate_vaddr m u false = true) :
    (∃ k, cnt + k ≤ 4095 ∧ m.byte (u + k) = 0 ∧ (∀ j, j < k → m.byte (u + j) ≠ 0) ∧
        ∀ j, j ≤ k → syscall_translate_vaddr m (u + j) false = true) ↔
      (syscall_translate_vaddr m (u + 1) false = true ∧
        ∃ k, cnt + 1 + k ≤ 4095 ∧ m.byte (u + 1 + k) = 0 ∧
          (∀ j, j < k → m.byte (u + 1 + j) ≠ 0) ∧
          ∀ j, j ≤ k → syscall_translate_vaddr m (u + 1 + j) false = true) := by
  constructor
  · rintro ⟨k, hk, hz, hnz, hv⟩
    cases k with
    | zero => exact absurd hz hb
    | succ k =>
      refine ⟨hv 1 (by omega), k, by omega, ?_, ?_, ?_⟩
      · rw [Nat.add_assoc, Nat.add_comm 1 k]; exact hz
      · intro j hj
        rw [Nat.add_assoc, Nat.add_comm 1 j]; exact hnz (j + 1) (by omega)
      · intro j hj
        rw [Nat.add_assoc, Nat.add_comm 1 j]; exact hv (j + 1) (by omega)
  · rintro ⟨h1, k, hk, hz, hnz, hv⟩
    refine ⟨k + 1, by omega, ?_, ?_, ?_⟩
    · rw [Nat.add_comm k 1, ← Nat.add_assoc]; exact hz
    · intro j hj
      cases j with
      | zero => exact hb
      | succ j =>
        rw [Nat.add_comm j 1, ← Nat.add_assoc]; exact hnz j (by omega)
    · intro j hj
      cases j with
      | zero => exact htu
      | succ j =>
        rw [Nat.add_comm j 1, ← Nat.add_assoc]; exact hv j (by omega)

theorem string_loop_true_iff (m : UserMem) (hm : m.wf) : ∀ fuel u cnt,
    4096 ≤ fuel + cnt → cnt ≤ 4095 → u < WORD →
    syscall_translate_vaddr m u false = true →
    ((∃ log, check_user_string_loop m fuel u cnt = some (true, log)) ↔
      ∃ k, cnt + k ≤ 4095 ∧ m.byte (u + k) = 0 ∧ (∀ j, j < k → m.byte (u + j) ≠ 0) ∧
        ∀ j, j ≤ k → syscall_translate_vaddr m (u + j) false = true) := by
  intro fuel
  induction fuel with
  | zero => intro u cnt h1 h2; omega
  | succ fuel ih =>
    intro u cnt h1 h2 hu htu
    simp only [check_user_string_loop]
    by_cases hb : m.byte u = 0
    · rw [if_pos hb]
      constructor
      · intro _
        refine ⟨0, by omega, hb, ?_, ?_⟩
        · intro j hj; omega
        · intro j hj
          have : j = 0 := by omega
          subst this; exact htu
      · intro _; exact ⟨_, rfl⟩
    · rw [if_neg hb]
      by_cases hc : cnt = 4095
      · rw [if_pos hc]
        constructor
        · rintro ⟨log, h⟩; simp at h
        · rintro ⟨k, hk, hz, _, _⟩
          have : k = 0 := by omega
          subst this; exact absurd hz hb
      · rw [if_neg hc, string_step m u cnt hb htu, and_PGMASK]
        have hwf := hm
        obtain ⟨hal, hpb⟩ := hm
        unfold PGSIZE at hal
        by_cases hw : u + 1 < WORD
        · have e1 : (u + 1) % WORD = u + 1 := Nat.mod_eq_of_lt hw
          rw [e1]
          by_cases ha : (u + 1) % 4096 = 0
          · rw [if_pos ha]
            cases ht : syscall_translate_vaddr m (u + 1) false
            · simp
            · simp only [Bool.not_true, Bool.false_eq_true, if_false, true_and]
              rw [map_true_iff _ (fun l => Access.deref u :: Access.translate (u + 1) true :: l)]
              exact ih (u + 1) (cnt + 1) (by omega) (by omega) hw ht
          · rw [if_neg ha]
            have ht : syscall_translate_vaddr m (u + 1) false = true :=
              translate_same_page m hwf u (u + 1) false htu (by omega) (by omega)
            rw [map_true_iff _ (fun l => Access.deref u :: l)]
            simp only [ht, true_and]
            exact ih (u + 1) (cnt + 1) (by omega) (by omega) hw ht
        · have e1 : (u + 1) % WORD = 0 := by unfold WORD at *; omega
          have hf : syscall_translate_vaddr m (u + 1) false = false := by
            cases h : syscall_translate_vaddr m (u + 1) false
            · rfl
            · rw [translate_true_iff] at h
              unfold WORD at *; omega
          have hf0 : syscall_translate_vaddr m 0 false = false := by
            cases h : syscall_translate_vaddr m 0 false
            · rfl
            · rw [translate_true_iff] at h
              omega
          rw [e1, hf]
          simp [hf0]

theorem string_loop_trace (m : UserMem) : ∀ fuel u cnt r pages, u < WORD →
    (u / PGSIZE) ∈ pages → check_user_string_loop m fuel u cnt = some r →
    reads_validated pages r.2 = true := by
  intro fuel
  induction fuel with
  | zero => intro u cnt r pages _ _ h; simp [check_user_string_loop] at h
  | succ fuel ih =>
    intro u cnt r pages hu hp h
    have hlt : (u + 1) % WORD < WORD := Nat.mod_lt _ (by unfold WORD; norm_num)
    simp only [check_user_string_loop] at h
    split_ifs at h with hb hc ha ht
    · cases h; simp [reads_validated, hp]
    · cases h; simp [reads_validated, hp]
    · cases h; simp [reads_validated, hp]
    · cases hr : check_user_string_loop m fuel ((u + 1) % WORD) (cnt + 1) with
      | none => rw [hr] at h; simp at h
      | some r1 =>
        rw [hr] at h
        simp only [Option.map_some', Option.some.injEq] at h
        subst h
        have := ih _ _ r1 (((u + 1) % WORD / PGSIZE) :: pages) hlt (List.mem_cons_self _ _) hr
        simp [reads_validated, hp, this]
    · cases hr : check_user_string_loop m fuel ((u + 1) % WORD) (cnt + 1) with
      | none => rw [hr] at h; simp at h
      | some r1 =>
        rw [hr] at h
        simp only [Option.map_some', Option.some.injEq] at h
        subst h
        rw [and_PGMASK] at ha
        have hpage : (u + 1) % WORD / PGSIZE = u / PGSIZE := by
          unfold WORD PGSIZE at *; omega
        have := ih _ _ r1 pages hlt (by rw [hpage]; exact hp) hr
        simp [reads_validated, hp, this]

/-- C4: characterisation of the string validator.  For every start address
`a`, `syscall_check_user_string` returns a result; it returns true exactly when
some offset `k ≤ 4095` holds the first NUL of the string and every address
`a .. a + k` passes `syscall_translate_vaddr`; so a string whose terminator is
the byte at offset 4095 is accepted and a string with no NUL among its first
4096 bytes is rejected; and every byte it reads lies in a page validated
earlier in the same call. -/
theorem check_user_string_spec (m : UserMem) (hm : m.wf) (a : Nat) (ha : a < WORD) :
    (∃ r, syscall_check_user_string m a = some r) ∧
    ((∃ log, syscall_check_user_string m a = some (true, log)) ↔
      ∃ k, k ≤ 4095 ∧ m.byte (a + k) = 0 ∧ (∀ j, j < k → m.byte (a + j) ≠ 0) ∧
        ∀ j, j ≤ k → syscall_translate_vaddr m (a + j) false = true) ∧
    (m.byte (a + 4095) = 0 → (∀ j, j < 4095 → m.byte (a + j) ≠ 0) →
      (∀ j, j ≤ 4095 → syscall_translate_vaddr m (a + j) false = true) →
      ∃ log, syscall_check_user_string m a = some (true, log)) ∧
    ((∀ j, j < 4096 → m.byte (a + j) ≠ 0) →
      ∃ log, syscall_check_user_string m a = some (false, log)) ∧
    (∀ r, syscall_check_user_string m a = some r → reads_validated [] r.2 = true) := by
  have htotal : ∃ r, syscall_check_user_string m a = some r := by
    unfold syscall_check_user_string
    split_ifs
    · exact ⟨_, rfl⟩
    · obtain ⟨r, hr⟩ := string_loop_total m 4096 a 0 (by omega) (by omega)
      rw [hr]; exact ⟨_, rfl⟩
  have hiff : (∃ log, syscall_check_user_string m a = some (true, log)) ↔
      ∃ k, k ≤ 4095 ∧ m.byte (a + k) = 0 ∧ (∀ j, j < k → m.byte (a + j) ≠ 0) ∧
        ∀ j, j ≤ k → syscall_translate_vaddr m (a + j) false = true := by
    unfold syscall_check_user_string
    cases ht : syscall_translate_vaddr m a false
    · simp only [Bool.not_false, if_true]
      constructor
      · rintro ⟨log, h⟩; simp at h
      · rintro ⟨k, _, _, _, hv⟩
        have := hv 0 (Nat.zero_le _)
        rw [Nat.add_zero, ht] at this
        exact absurd this Bool.false_ne_true
    · simp only [Bool.not_true, Bool.false_eq_true, if_false]
      rw [map_true_iff _ (fun l => Access.translate a true :: l),
        string_loop_true_iff m hm 4096 a 0 (by omega) (by omega) ha ht]
      simp only [Nat.zero_add]
  refine ⟨htotal, hiff, ?_, ?_, ?_⟩
  · intro hz hnz hv
    exact hiff.2 ⟨4095, Nat.le_refl _, hz, hnz, hv⟩
  · intro hnz
    obtain ⟨r, hr⟩ := htotal
    obtain ⟨b, log⟩ := r
    cases b with
    | false => exact ⟨log, hr⟩
    | true =>
      obtain ⟨k, hk, hz, _, _⟩ := hiff.1 ⟨log, hr⟩
      exact absurd hz (hnz k (by omega))
  · intro r hr
    unfold syscall_check_user_string at hr
    split_ifs at hr with ht
    · cases hr; simp [reads_validated]
    · cases hl : check_user_string_loop m 4096 a 0 with
      | none => rw [hl] at hr; simp at hr
      | some r1 =>
        rw [hl] at hr
        simp only [Option.map_some', Option.some.injEq] at hr
        subst hr
        have := string_loop_trace m 4096 a 0 r1 [a / PGSIZE] ha (List.mem_singleton.2 rfl) hl
        simp [reads_validated, this]

/-- Witness for `check_user_string_spec`: a string that crosses from page
`0x8048` into page `0x8049` and ends at `0x8049002`. -/
theorem check_user_string_spec_witness :
    exMem.wf ∧ 0x8048ffe < WORD ∧
      syscall_check_user_string exMem 0x8048ffe = some (true,
        [Access.translate 0x8048ffe true, Access.deref 0x8048ffe, Access.deref 0x8048fff,
          Access.translate 0x8049000 true, Access.deref 0x8049000, Access.deref 0x8049001,
          Access.deref 0x8049002]) ∧
      ∃ r, syscall_check_user_string exMem 0x8048ffe = some r :=
  ⟨by decide, by decide, by decide, (check_user_string_spec exMem (by decide) 0x8048ffe (by decide)).1⟩

/-! ## Dispatcher -/

theorem ptr_add_lit (esp : Nat) (d : Nat) (h : esp + d < WORD) : ptr_add esp (d : Int) = esp + d := by
  rw [ptr_add_nat, Nat.mod_eq_of_lt h]

theorem region_valid (m : UserMem) (hm : m.wf) (esp : Nat) (hesp : esp < WORD) (k : Nat)
    (hk : k ≤ 3)
    (h0 : syscall_check_user_buffer m esp 4 false = true)
    (h1 : 1 ≤ k → syscall_check_user_buffer m (ptr_add esp 4) ((4 * k : Nat) : Int) false = true) :
    ∀ i, i < 4 + 4 * k → esp + i < m.PHYS_BASE ∧ syscall_translate_vaddr m (esp + i) false = true := by
  have hw := hm.2
  have hs := check_user_buffer_pos_sound m hm esp 4 false hesp (by omega) (by norm_num) h0
  intro i hi
  by_cases hi4 : i < 4
  · exact hs i hi4
  · have h3 := (hs 3 (by omega)).1
    have e4 : ptr_add esp 4 = esp + 4 := ptr_add_lit esp 4 (by omega)
    have h1' := h1 (by omega)
    rw [e4] at h1'
    have := check_user_buffer_pos_sound m hm (esp + 4) (4 * k) false (by omega) (by omega)
      (by omega) h1' (i - 4) (by omega)
    have e : esp + 4 + (i - 4) = esp + i := by omega
    rw [e] at this
    exact this

theorem syscall_handler_invoke (m : UserMem) (nr : Nat → Option SysNr) (esp : Nat) (c : Call)
    (h : syscall_handler m nr esp = Dispatch.invoke c) :
    syscall_check_user_buffer m esp 4 false = true ∧
    nr (load32 m esp) = some c.nr ∧
    (1 ≤ c.nr.words →
      syscall_check_user_buffer m (ptr_add esp 4) ((4 * c.nr.words : Nat) : Int) false = true) ∧
    c.args = ([ptr_add esp 4, ptr_add esp 8, ptr_add esp 12].take c.nr.words).map (load32 m) := by
  unfold syscall_handler at h
  cases hc : syscall_check_user_buffer m esp 4 false
  · simp [hc] at h
  · simp only [hc, Bool.not_true, Bool.false_eq_true, if_false] at h
    refine ⟨rfl, ?_⟩
    cases hnr : nr (load32 m esp) with
    | none => simp [hnr, syscall_handler_args] at h
    | some s =>
      rw [hnr] at h
      cases s <;> simp only [syscall_handler_args] at h <;>
        first
        | (cases h; exact ⟨rfl, fun hk => absurd hk (by decide), rfl⟩)
        | (split_ifs at h with ha
           cases h
           simp only [Bool.not_eq_true', Bool.not_eq_false] at ha
           exact ⟨rfl, fun _ => ha, rfl⟩)

theorem words_le (s : SysNr) : s.words ≤ 3 := by
  cases s <;> decide

theorem syscall_handler_killed (m : UserMem) (nr : Nat → Option SysNr) (esp : Nat) (st : Int)
    (h : syscall_handler m nr esp = Dispatch.killed st) : st = -1 := by
  unfold syscall_handler at h
  cases hc : syscall_check_user_buffer m esp 4 false
  · simp only [hc, Bool.not_false, if_true] at h
    cases h; rfl
  · simp only [hc, Bool.not_true, Bool.false_eq_true, if_false] at h
    cases ha : syscall_handler_args m (nr (load32 m esp)) (ptr_add esp 4)
    · simp only [ha, Bool.not_false, if_true] at h
      cases h; rfl
    · simp only [ha, Bool.not_true, Bool.false_eq_true, if_false] at h
      cases hnr : nr (load32 m esp) with
      | none => rw [hnr] at h; cases h; rfl
      | some s => rw [hnr] at h; cases s <;> cases h

/-- C5: two-phase dispatch.  For every trap frame, a handler is invoked only
if `syscall_check_user_buffer` accepted the four bytes of the call number at
`esp` and, for a call with `k ≥ 1` argument words (`k` as the specification
lists it), the `4 k` bytes at `esp + 4`; the words passed to the handler are the
words stored there and every byte of both regions passes
`syscall_translate_vaddr`.  If the number is not a recognised call or one of
the two region checks fails, the process is terminated and no handler runs; the
status of every termination by the dispatcher is -1. -/
theorem syscall_handler_two_phase (m : UserMem) (hm : m.wf) (nr : Nat → Option SysNr)
    (esp : Nat) (hesp : esp < WORD) :
    (∀ c, syscall_handler m nr esp = Dispatch.invoke c →
      syscall_check_user_buffer m esp 4 false = true ∧
      nr (load32 m esp) = some c.nr ∧
      (1 ≤ c.nr.words →
        syscall_check_user_buffer m (esp + 4) ((4 * c.nr.words : Nat) : Int) false = true) ∧
      c.args = (List.range c.nr.words).map (fun j => load32 m (esp + 4 + 4 * j)) ∧
      ∀ i, i < 4 + 4 * c.nr.words →
        esp + i < WORD ∧ syscall_translate_vaddr m (esp + i) false = true) ∧
    (syscall_check_user_buffer m esp 4 false = false →
      syscall_handler m nr esp = Dispatch.killed (-1)) ∧
    (nr (load32 m esp) = none → syscall_handler m nr esp = Dispatch.killed (-1)) ∧
    (∀ s, nr (load32 m esp) = some s → 1 ≤ s.words →
      syscall_check_user_buffer m (ptr_add esp 4) ((4 * s.words : Nat) : Int) false = false →
      syscall_handler m nr esp = Dispatch.killed (-1)) ∧
    (∀ st, syscall_handler m nr esp = Dispatch.killed st → st = -1) := by
  have hkill : ∀ d, (∀ c, d ≠ Dispatch.invoke c) → (∀ st, d = Dispatch.killed st → st = -1) →
      d = Dispatch.killed (-1) := by
    intro d h1 h2
    cases d with
    | killed st => rw [h2 st rfl]
    | invoke c => exact absurd rfl (h1 c)
  refine ⟨?_, ?_, ?_, ?_, syscall_handler_killed m nr esp⟩
  · intro c h
    obtain ⟨h0, hnr, hreg, hargs⟩ := syscall_handler_invoke m nr esp c h
    have hval := region_valid m hm esp hesp c.nr.words (words_le _) h0 hreg
    have hpb := hm.2
    have h3 := (hval 3 (by omega)).1
    have e4 : ptr_add esp 4 = esp + 4 := ptr_add_lit esp 4 (by omega)
    refine ⟨h0, hnr, ?_, ?_, ?_⟩
    · intro hk; rw [← e4]; exact hreg hk
    · rw [hargs]
      have hw := words_le c.nr
      generalize c.nr.words = w at *
      interval_cases w
      · rfl
      · simp [List.range, List.range.loop, e4]
      · have h11 := (hval 11 (by omega)).1
        have e8 : ptr_add esp 8 = esp + 8 := ptr_add_lit esp 8 (by omega)
        simp [List.range, List.range.loop, e4, e8]
      · have h15 := (hval 15 (by omega)).1
        have e8 : ptr_add esp 8 = esp + 8 := ptr_add_lit esp 8 (by omega)
        have e12 : ptr_add esp 12 = esp + 12 := ptr_add_lit esp 12 (by omega)
        simp [List.range, List.range.loop, e4, e8, e12]
    · intro i hi
      exact ⟨by have := (hval i hi).1; omega, (hval i hi).2⟩
  · intro h0
    refine hkill _ ?_ (syscall_handler_killed m nr esp)
    intro c hc
    have := (syscall_handler_invoke m nr esp c hc).1
    rw [h0] at this
    exact Bool.false_ne_true this
  · intro hnone
    refine hkill _ ?_ (syscall_handler_killed m nr esp)
    intro c hc
    have := (syscall_handler_invoke m nr esp c hc).2.1
    rw [hnone] at this
    cases this
  · intro s hs hk hf
    refine hkill _ ?_ (syscall_handler_killed m nr esp)
    intro c hc
    obtain ⟨_, hnr, hreg, _⟩ := syscall_handler_invoke m nr esp c hc
    rw [hs] at hnr
    cases hnr
    have := hreg hk
    rw [hf] at this
    exact Bool.false_ne_true this

/-- Witness for `syscall_handler_two_phase`: the frame of `write (1, buf, 5)` on
the stack page of `exStack` is dispatched to `syscall_write`. -/
theorem syscall_handler_two_phase_witness :
    exStack.wf ∧ 0xbfffff00 < WORD ∧
      syscall_handler exStack exNr 0xbfffff00 =
        Dispatch.invoke (Call.syscall_write 1 0xbfffff20 5) ∧
      ∀ st, syscall_handler exStack exNr 0xbfffff00 = Dispatch.killed st → st = -1 :=
  ⟨by decide, by decide, by decide,
    (syscall_handler_two_phase exStack (by decide) exNr 0xbfffff00 (by decide)).2.2.2.2⟩

/-! ## Handlers -/

theorem read_stdout_exits (m : UserMem) (fs : Filesys) (k : Kernel) (buffer size : Nat) :
    syscall_read m fs k STDOUT_FILENO buffer size = Outcome.exited (-1) k := by
  unfold syscall_read
  by_cases h : (!syscall_check_user_buffer m buffer (toInt32 size) true) = true
  · rw [if_pos h]
  · rw [if_neg h, if_pos rfl]

theorem write_stdin_exits (m : UserMem) (fs : Filesys) (k : Kernel) (buffer size : Nat) :
    syscall_write m fs k STDIN_FILENO buffer size = Outcome.exited (-1) k := by
  unfold syscall_write
  by_cases h : (!syscall_check_user_buffer m buffer (toInt32 size) false) = true
  · rw [if_pos h]
  · rw [if_neg h, if_pos rfl]

/-- C10: for every buffer pointer, every length and every state of the handle
registry, `syscall_read` on descriptor 1 and `syscall_write` on descriptor 0
terminate the process with status -1 and leave the state as it was: nothing is
added to the log of outside calls, so the input device, the console and the
file system are not touched. -/
theorem stdio_wrong_direction_fatal (m : UserMem) (fs : Filesys) (k : Kernel)
    (buffer size : Nat) :
    syscall_read m fs k 1 buffer size = Outcome.exited (-1) k ∧
    syscall_write m fs k 0 buffer size = Outcome.exited (-1) k :=
  ⟨read_stdout_exits m fs k buffer size, write_stdin_exits m fs k buffer size⟩

/-- C8: at the failing inputs the return slot is not set.  `syscall_write` on
descriptor 1 with a valid five-byte buffer prints it and returns with `eax`
still holding its old value `0xdead`, not 5, and `syscall_read` on descriptor 0
reads two bytes from the input device and likewise leaves `eax` alone; on a
file handle the slot does receive the value of `file_write`. -/
theorem stdio_return_slot_not_set :
    syscall_write exMem exFs exKernel 1 0x8049000 5 =
      Outcome.returned { exKernel with trace := [Event.putbuf 0x8049000 5] } ∧
    syscall_read exMem exFs exKernel 0 0x8049000 2 =
      Outcome.returned { exKernel with trace := [Event.input_getc, Event.store 0x8049000,
        Event.input_getc, Event.store 0x8049001] } ∧
    exKernel.eax = 0xdead ∧
    syscall_write exMem exFs exKernel 3 0x8049000 5 =
      Outcome.returned { exKernel with eax := 5, trace := [Event.file_get_inode 7,
        Event.inode_isdir 7, Event.lock_acquire, Event.file_write 7 0x8049000 5,
        Event.lock_release] } := by
  decide

theorem get_none_of_fresh (l : List file_handle) (d : Nat) (h : ∀ x ∈ l, x.fd ≠ d) :
    l.find? (fun x => x.fd == d) = none := by
  rw [List.find?_eq_none]
  intro x hx
  simp [h x hx]

/-- What `syscall_tell` and `syscall_filesize` do on a descriptor that
resolves to a handle: `syscall_tell` terminates the process with status -1
without calling `file_tell` when the object is a directory and writes the
position to the return slot when it is a regular file; `syscall_filesize` has
no directory test and, directory or not, calls `file_length` and writes the
length to the return slot. -/
theorem tell_filesize_on_handle (fs : Filesys) (k : Kernel) (fd : Nat) (t : file_handle)
    (ht : syscall_get_file_handle k fd = some t) :
    (fs.inode_isdir t.opened_file = true →
      syscall_tell fs k fd = Outcome.exited (-1)
        (k.log [Event.file_get_inode t.opened_file, Event.inode_isdir t.opened_file])) ∧
    (fs.inode_isdir t.opened_file = false →
      syscall_tell fs k fd = Outcome.returned
        { k with eax := fs.file_tell t.opened_file % WORD,
                 trace := k.trace ++ [Event.file_get_inode t.opened_file,
                   Event.inode_isdir t.opened_file, Event.lock_acquire,
                   Event.file_tell t.opened_file, Event.lock_release] }) ∧
    syscall_filesize fs k fd = Outcome.returned
      { k with eax := fs.file_length t.opened_file % WORD,
               trace := k.trace ++ [Event.lock_acquire, Event.file_length t.opened_file,
                 Event.lock_release] } := by
  refine ⟨?_, ?_, ?_⟩
  · intro hdir
    simp only [syscall_tell, ht, hdir, Bool.not_true, Bool.false_eq_true, if_false]
  · intro hdir
    simp only [syscall_tell, ht, hdir, Bool.not_false, if_true, Kernel.log, List.append_assoc,
      List.cons_append, List.nil_append]
  · simp only [syscall_filesize, ht, Kernel.log]

/-- An instance of `tell_filesize_on_handle`: descriptor 3 of `exKernel`. -/
theorem tell_filesize_on_handle_witness :
    syscall_get_file_handle exKernel 3 = some { fd := 3, opened_file := 7, opened_dir := none } ∧
      syscall_filesize exFsDir exKernel 3 = Outcome.returned
        { exKernel with eax := exFsDir.file_length 7 % WORD,
                        trace := exKernel.trace ++ [Event.lock_acquire, Event.file_length 7,
                          Event.lock_release] } :=
  ⟨by decide, (tell_filesize_on_handle exFsDir exKernel 3
      { fd := 3, opened_file := 7, opened_dir := none } (by decide)).2.2⟩

/-- C9: at the failing input `syscall_filesize` accepts a directory handle.
Descriptor 3 of `exKernel` resolves to a handle whose object is a directory
under `exFsDir`; `syscall_filesize` calls `file_length` and returns the length
42 in the return slot instead of terminating the process with status -1, while
`syscall_tell` on the same descriptor does terminate it without calling
`file_tell`. -/
theorem filesize_accepts_directory :
    (syscall_get_file_handle exKernel 3).map (fun t => exFsDir.inode_isdir t.opened_file)
      = some true ∧
    syscall_filesize exFsDir exKernel 3 =
      Outcome.returned
        { exKernel with eax := 42,
                        trace := [Event.lock_acquire, Event.file_length 7,
                          Event.lock_release] } ∧
    syscall_tell exFsDir exKernel 3 =
      Outcome.exited (-1) { exKernel with
        trace := [Event.file_get_inode 7, Event.inode_isdir 7] } := by
  decide

/-! ## Descriptor allocation -/

theorem syscall_open_cases (m : UserMem) (fs : Filesys) (k : Kernel) (name : Nat) :
    syscall_open m fs k name = Outcome.exited (-1) k ∨
    (∃ k1, syscall_open m fs k name = Outcome.returned k1 ∧ k1.file_list = k.file_list ∧
      k1.fd_next = k.fd_next ∧ k1.eax = 4294967295) ∨
    (∃ k1 h, syscall_open m fs k name = Outcome.returned k1 ∧
      k1.file_list = k.file_list ++ [h] ∧ h.fd = k.fd_next ∧ k1.eax = k.fd_next ∧
      k1.fd_next = (k.fd_next + 1) % WORD) := by
  unfold syscall_open
  split
  · cases hf : fs.filesys_open name with
    | none => right; left; exact ⟨_, rfl, rfl, rfl, rfl⟩
    | some tmp_file =>
      right; right
      by_cases hdir : fs.inode_isdir tmp_file = true
      · simp only [hdir, if_true]
        exact ⟨_, _, rfl, rfl, rfl, rfl, rfl⟩
      · simp only [hdir, Bool.false_eq_true, if_false]
        exact ⟨_, _, rfl, rfl, rfl, rfl, rfl⟩
  · left; rfl

theorem syscall_close_cases (fs : Filesys) (k : Kernel) (fd : Nat) :
    syscall_close fs k fd = Outcome.exited (-1) k ∨
    (∃ k1 t, syscall_close fs k fd = Outcome.returned k1 ∧
      syscall_get_file_handle k fd = some t ∧ k1.file_list = k.file_list.erase t ∧
      k1.fd_next = k.fd_next) := by
  unfold syscall_close
  cases hg : syscall_get_file_handle k fd with
  | none => left; rfl
  | some t =>
    right
    by_cases hdir : fs.inode_isdir t.opened_file = true
    · exact ⟨_, t, rfl, rfl, by simp [hdir, Kernel.log], by simp [hdir, Kernel.log]⟩
    · exact ⟨_, t, rfl, rfl, by simp [hdir, Kernel.log], by simp [hdir, Kernel.log]⟩

theorem run_fd_ops_inv : ∀ (ops : List FdOp) (k : Kernel) (n : Nat),
    k.fd_next = (2 + n) % WORD → (∀ h ∈ k.file_list, 2 ≤ h.fd ∧ h.fd < 2 + n) →
    n + (run_fd_ops k ops).2.length ≤ 2 ^ 32 - 2 →
    (run_fd_ops k ops).2 = List.range' (2 + n) (run_fd_ops k ops).2.length ∧
    ∀ h ∈ (run_fd_ops k ops).1.file_list,
      2 ≤ h.fd ∧ h.fd < 2 + n + (run_fd_ops k ops).2.length := by
  intro ops
  induction ops with
  | nil =>
    intro k n _ hreg _
    simp only [run_fd_ops, List.length_nil, List.range'_zero, Nat.add_zero, true_and]
    exact hreg
  | cons op ops ih =>
    intro k n hn hreg hlen
    cases op with
    | do_open m fs name =>
      rcases syscall_open_cases m fs k name with he | ⟨k1, he, hl, hnext, _⟩ |
        ⟨k1, h, he, hl, hfd, heax, hnext⟩
      · simp only [run_fd_ops, FdOp.step, he, List.length_nil, List.range'_zero, Nat.add_zero,
          true_and]
        exact hreg
      · have hrun : run_fd_ops k (FdOp.do_open m fs name :: ops) = run_fd_ops k1 ops := by
          simp only [run_fd_ops, FdOp.step, he, hl, Nat.lt_irrefl, decide_False, Bool.and_false,
            Bool.false_eq_true, if_false]
        rw [hrun] at hlen ⊢
        exact ih k1 n (by rw [hnext]; exact hn) (by rw [hl]; exact hreg) hlen
      · have hrun : run_fd_ops k (FdOp.do_open m fs name :: ops) =
            ((run_fd_ops k1 ops).1, k.fd_next :: (run_fd_ops k1 ops).2) := by
          simp only [run_fd_ops, FdOp.step, he, hl, FdOp.is_open, List.length_append,
            List.length_singleton, Nat.lt_succ_self, decide_True, Bool.and_true, if_true, heax]
        rw [hrun] at hlen ⊢
        simp only [List.length_cons] at hlen ⊢
        have hsmall : 2 + n < WORD := by unfold WORD; omega
        have hk : k.fd_next = 2 + n := by rw [hn, Nat.mod_eq_of_lt hsmall]
        have hnext1 : k1.fd_next = (2 + (n + 1)) % WORD := by rw [hnext, hk]; rfl
        have hreg1 : ∀ x ∈ k1.file_list, 2 ≤ x.fd ∧ x.fd < 2 + (n + 1) := by
          intro x hx
          rw [hl, List.mem_append, List.mem_singleton] at hx
          rcases hx with hx | hx
          · have := hreg x hx; omega
          · subst hx; omega
        obtain ⟨h1, h2⟩ := ih k1 (n + 1) hnext1 hreg1 (by omega)
        refine ⟨?_, ?_⟩
        · rw [List.range'_succ, hk]
          congr 1
        · intro x hx
          have := h2 x hx
          omega
    | do_close fs fd =>
      rcases syscall_close_cases fs k fd with he | ⟨k1, t, he, _, hl, hnext⟩
      · simp only [run_fd_ops, FdOp.step, he, List.length_nil, List.range'_zero, Nat.add_zero,
          true_and]
        exact hreg
      · have hrun : run_fd_ops k (FdOp.do_close fs fd :: ops) = run_fd_ops k1 ops := by
          simp only [run_fd_ops, FdOp.step, he, FdOp.is_open, Bool.false_and,
            Bool.false_eq_true, if_false]
        rw [hrun] at hlen ⊢
        refine ih k1 n (by rw [hnext]; exact hn) ?_ hlen
        intro x hx
        rw [hl] at hx
        exact hreg x (List.mem_of_mem_erase hx)

/-- C7 (as amended): over every sequence of `open` and `close` calls started
at boot, with failed opens interleaved, as long as at most `2 ^ 32 - 2` opens
have succeeded (so that the 32-bit counter `fd_next` has not wrapped), the
descriptors returned by the successful opens are exactly 2, 3, 4, ... in
order: each is at least 2 and strictly greater than all earlier ones, none is
issued twice even after a close, every handle in the registry carries one of
them (so never 0 or 1), and an open that fails leaves `fd_next` as it was. -/
theorem open_descriptors (eax : Nat) (ops : List FdOp)
    (hlen : (run_fd_ops (Kernel.init eax) ops).2.length ≤ 2 ^ 32 - 2) :
    (run_fd_ops (Kernel.init eax) ops).2 =
      List.range' 2 (run_fd_ops (Kernel.init eax) ops).2.length ∧
    List.Pairwise (fun x y => x < y) (run_fd_ops (Kernel.init eax) ops).2 ∧
    (∀ d ∈ (run_fd_ops (Kernel.init eax) ops).2, 2 ≤ d) ∧
    (∀ h ∈ (run_fd_ops (Kernel.init eax) ops).1.file_list,
      2 ≤ h.fd ∧ h.fd ∈ (run_fd_ops (Kernel.init eax) ops).2) ∧
    (∀ m fs k name k1, syscall_open m fs k name = Outcome.returned k1 →
      k1.file_list.length = k.file_list.length → k1.fd_next = k.fd_next) := by
  obtain ⟨h1, h2⟩ := run_fd_ops_inv ops (Kernel.init eax) 0 rfl
    (by intro h hh; simp [Kernel.init] at hh) (by omega)
  simp only [Nat.add_zero] at h1 h2
  refine ⟨h1, ?_, ?_, ?_, ?_⟩
  · rw [h1]; exact List.pairwise_lt_range' 2 _
  · intro d hd
    rw [h1, List.mem_range'_1] at hd
    exact hd.1
  · intro h hh
    refine ⟨(h2 h hh).1, ?_⟩
    rw [h1, List.mem_range'_1]
    exact h2 h hh
  · intro m fs k name k1 he hl
    rcases syscall_open_cases m fs k name with he1 | ⟨k2, he1, _, hnext, _⟩ |
      ⟨k2, h, he1, hl1, _, _, _⟩
    · rw [he1] at he; cases he
    · rw [he1] at he; cases he; exact hnext
    · rw [he1] at he; cases he
      rw [hl1, List.length_append, List.length_singleton] at hl
      omega

/-- Witness for `open_descriptors`: two opens, a close of descriptor 2 and a
third open yield 2, 3, 4; the closed descriptor is not issued again. -/
theorem open_descriptors_witness :
    (run_fd_ops (Kernel.init 0)
        [FdOp.do_open exMem exFs 0x8048ffe, FdOp.do_open exMem exFs 0x8048ffe,
          FdOp.do_close exFs 2, FdOp.do_open exMem exFs 0x8048ffe]).2 = [2, 3, 4] ∧
      List.Pairwise (fun x y => x < y)
        (run_fd_ops (Kernel.init 0)
          [FdOp.do_open exMem exFs 0x8048ffe, FdOp.do_open exMem exFs 0x8048ffe,
            FdOp.do_close exFs 2, FdOp.do_open exMem exFs 0x8048ffe]).2 :=
  ⟨by decide,
    (open_descriptors 0
      [FdOp.do_open exMem exFs 0x8048ffe, FdOp.do_open exMem exFs 0x8048ffe,
        FdOp.do_close exFs 2, FdOp.do_open exMem exFs 0x8048ffe] (by decide)).2.1⟩

theorem exMem_string_ok :
    syscall_check_user_string exMem 0x8048ffe = some (true,
      [Access.translate 0x8048ffe true, Access.deref 0x8048ffe, Access.deref 0x8048fff,
        Access.translate 0x8049000 true, Access.deref 0x8049000, Access.deref 0x8049001,
        Access.deref 0x8049002]) := by
  decide

theorem syscall_open_success (m : UserMem) (fs : Filesys) (k : Kernel) (name f : Nat)
    (log : List Access) (hs : syscall_check_user_string m name = some (true, log))
    (hf : fs.filesys_open name = some f) :
    ∃ k1 h, syscall_open m fs k name = Outcome.returned k1 ∧
      k1.file_list = k.file_list ++ [h] ∧ h.fd = k.fd_next ∧ k1.eax = k.fd_next ∧
      k1.fd_next = (k.fd_next + 1) % WORD := by
  rcases syscall_open_cases m fs k name with he | ⟨k1, he, _, _, _⟩ | h
  · simp [syscall_open, hs, hf] at he
    split_ifs at he
  · exfalso
    simp only [syscall_open, hs, hf] at he
    split_ifs at he <;>
      · cases he
        simp [thread_file_list_inster, Kernel.log] at *
  · exact h

theorem syscall_close_found (fs : Filesys) (k : Kernel) (fd : Nat) (t : file_handle)
    (hg : syscall_get_file_handle k fd = some t) :
    ∃ k1, syscall_close fs k fd = Outcome.returned k1 ∧
      k1.file_list = k.file_list.erase t ∧ k1.fd_next = k.fd_next := by
  rcases syscall_close_cases fs k fd with he | ⟨k1, t1, he, hg1, hl, hn⟩
  · simp [syscall_close, hg] at he
  · rw [hg] at hg1
    cases hg1
    exact ⟨k1, he, hl, hn⟩

theorem run_open_close_cycles (m : UserMem) (fs : Filesys) (name f : Nat)
    (log : List Access) (hs : syscall_check_user_string m name = some (true, log))
    (hf : fs.filesys_open name = some f) : ∀ (n : Nat) (k : Kernel), k.fd_next < WORD →
    (∀ i, i < n → ∀ h ∈ k.file_list, h.fd ≠ (k.fd_next + i) % WORD) →
    (run_fd_ops k (open_close_cycles m fs name n k.fd_next)).1.file_list = k.file_list ∧
    (run_fd_ops k (open_close_cycles m fs name n k.fd_next)).1.fd_next
      = (k.fd_next + n) % WORD ∧
    ∀ i, i < n →
      (k.fd_next + i) % WORD ∈ (run_fd_ops k (open_close_cycles m fs name n k.fd_next)).2 := by
  intro n
  induction n with
  | zero =>
    intro k hk _
    refine ⟨rfl, ?_, ?_⟩
    · simp only [open_close_cycles, run_fd_ops, Nat.add_zero]
      exact (Nat.mod_eq_of_lt hk).symm
    · intro i hi; omega
  | succ n ih =>
    intro k hk hfree
    obtain ⟨k1, h, he, hl, hfd, heax, hnext⟩ := syscall_open_success m fs k name f log hs hf
    -- the close finds the handle just inserted
    have hfree0 : ∀ x ∈ k.file_list, x.fd ≠ k.fd_next := by
      intro x hx
      have := hfree 0 (Nat.succ_pos n) x hx
      rw [Nat.add_zero, Nat.mod_eq_of_lt hk] at this
      exact this
    have hg : syscall_get_file_handle k1 k.fd_next = some h := by
      unfold syscall_get_file_handle
      rw [hl, List.find?_append, get_none_of_fresh _ _ hfree0]
      simp [hfd]
    obtain ⟨k2, hc, hl2, hnext2⟩ := syscall_close_found fs k1 k.fd_next h hg
    have hnot : h ∉ k.file_list := fun hm => hfree0 h hm hfd
    have hlist : k2.file_list = k.file_list := by
      rw [hl2, hl, List.erase_append_right _ hnot]
      simp
    have hk2 : k2.fd_next = (k.fd_next + 1) % WORD := by rw [hnext2, hnext]
    have hk2lt : k2.fd_next < WORD := by
      rw [hk2]; exact Nat.mod_lt _ (by unfold WORD; norm_num)
    have hrun : run_fd_ops k (open_close_cycles m fs name (n + 1) k.fd_next) =
        ((run_fd_ops k2 (open_close_cycles m fs name n k2.fd_next)).1,
          k.fd_next :: (run_fd_ops k2 (open_close_cycles m fs name n k2.fd_next)).2) := by
      rw [hk2]
      simp only [open_close_cycles, run_fd_ops, FdOp.step, he, hc, hl, FdOp.is_open,
        List.length_append, List.length_singleton, Nat.lt_succ_self, decide_True,
        Bool.and_true, Bool.false_and, Bool.false_eq_true, if_true, if_false, heax]
    have hfree2 : ∀ i, i < n → ∀ x ∈ k2.file_list, x.fd ≠ (k2.fd_next + i) % WORD := by
      intro i hi x hx
      rw [hlist] at hx
      have := hfree (i + 1) (by omega) x hx
      have e : (k2.fd_next + i) % WORD = (k.fd_next + (i + 1)) % WORD := by
        rw [hk2]; unfold WORD; omega
      rw [e]; exact this
    obtain ⟨h1, h2, h3⟩ := ih k2 hk2lt hfree2
    rw [hrun]
    refine ⟨by rw [h1, hlist], ?_, ?_⟩
    · show (run_fd_ops k2 (open_close_cycles m fs name n k2.fd_next)).1.fd_next = _
      rw [h2, hk2]; unfold WORD; omega
    · intro i hi
      cases i with
      | zero =>
        rw [Nat.add_zero, Nat.mod_eq_of_lt hk]
        exact List.mem_cons_self _ _
      | succ i =>
        have := h3 i (by omega)
        have e : (k2.fd_next + i) % WORD = (k.fd_next + (i + 1)) % WORD := by
          rw [hk2]; unfold WORD; omega
        rw [e] at this
        exact List.mem_cons_of_mem _ this

/-- C7 (counterexample): the 32-bit counter `fd_next` wraps.  In the run from
boot of `2 ^ 32 - 1` rounds, each an `open` followed by the `close` of the
descriptor just returned (so no handle is open between two rounds and the
registry is empty at the end), the last open returns descriptor 0: 0 is among
the descriptors issued, so not every descriptor issued is at least 2. -/
theorem descriptor_counter_wraps :
    (run_fd_ops (Kernel.init 0)
      (open_close_cycles exMem exFs 0x8048ffe (2 ^ 32 - 1) 2)).1.file_list = [] ∧
    0 ∈ (run_fd_ops (Kernel.init 0)
      (open_close_cycles exMem exFs 0x8048ffe (2 ^ 32 - 1) 2)).2 ∧
    ¬ ∀ d ∈ (run_fd_ops (Kernel.init 0)
      (open_close_cycles exMem exFs 0x8048ffe (2 ^ 32 - 1) 2)).2, 2 ≤ d := by
  obtain ⟨h1, _, h3⟩ := run_open_close_cycles exMem exFs 0x8048ffe 7 _ exMem_string_ok rfl
    (2 ^ 32 - 1) (Kernel.init 0) (by decide) (fun i _ h hh => by cases hh)
  have e2 : (Kernel.init 0).fd_next = 2 := rfl
  rw [e2] at h1 h3
  have h0 := h3 (2 ^ 32 - 2) (by norm_num)
  have e : (2 + (2 ^ 32 - 2)) % WORD = 0 := by decide
  rw [e] at h0
  exact ⟨h1, h0, fun hall => absurd (hall 0 h0) (by decide)⟩

theorem lock_walk_read_stdin (held : Bool) : ∀ size str,
    lock_walk held (read_stdin_loop size str) = some held := by
  intro size
  induction size with
  | zero => intro str; rfl
  | succ size ih => intro str; simp only [read_stdin_loop, lock_walk]; exact ih _

theorem dir_arg_events (m : UserMem) (dir : Nat) :
    (dir_arg_rejected m dir).2 = [] ∨ (dir_arg_rejected m dir).2 = [Event.strlen dir] := by
  unfold dir_arg_rejected
  split
  · right; rfl
  · left; rfl

theorem lock_walk_dir_arg (m : UserMem) (dir : Nat) (held : Bool) (rest : List Event) :
    lock_walk held ((dir_arg_rejected m dir).2 ++ rest) = lock_walk held rest := by
  rcases dir_arg_events m dir with h | h <;> rw [h] <;> rfl

theorem lock_walk_dir_arg_nil (m : UserMem) (dir : Nat) (held : Bool) :
    lock_walk held (dir_arg_rejected m dir).2 = some held := by
  rcases dir_arg_events m dir with h | h <;> rw [h] <;> rfl

/-- C11: lock release on every exit path.  For every handler and every input,
the events the handler adds to the log, walked from the lock not held, never
acquire the file-system lock while the caller holds it, never release it while
it is free, and leave it not held at the end, whether the handler returns,
terminates the process through `thread_exit_with_return_value` or powers the
machine off; so every `lock_acquire` is matched by a `lock_release` on every
path. -/
theorem lock_released_on_every_path (e : Env) (k : Kernel) (c : Call) :
    (run_handler e k c).2.trace = k.trace ++ handler_events e k c ∧
    lock_walk false (handler_events e k c) = some false := by
  cases c <;>
    simp only [run_handler, handler_events, syscall_halt, syscall_exit, syscall_exec,
      syscall_wait, syscall_tell, syscall_close, syscall_remove, syscall_open,
      syscall_filesize, syscall_chdir, syscall_mkdir, syscall_readdir, syscall_isdir,
      syscall_inumber, syscall_create, syscall_seek, syscall_read, syscall_write] <;>
    (repeat' split) <;>
    simp [Outcome.ending, Kernel.log, lock_walk, thread_file_list_inster,
      lock_walk_read_stdin, lock_walk_dir_arg, lock_walk_dir_arg_nil]

theorem dir_arg_no_acquire (m : UserMem) (dir : Nat) :
    Event.lock_acquire ∉ (dir_arg_rejected m dir).2 := by
  rcases dir_arg_events m dir with h | h <;> rw [h] <;> simp

/-- Where the lock is taken and where it is not: in every execution of create,
remove, seek and close each call into the underlying file system is made while
the caller holds the file-system lock, and chdir, mkdir and readdir never
acquire the lock. -/
theorem lock_coverage (e : Env) (k : Kernel) (c : Call) :
    (c.nr ∈ [SysNr.SYS_CREATE, SysNr.SYS_REMOVE, SysNr.SYS_SEEK, SysNr.SYS_CLOSE] →
      fs_calls_locked (fun _ => false) false (handler_events e k c) = true) ∧
    (c.nr ∈ [SysNr.SYS_CHDIR, SysNr.SYS_MKDIR, SysNr.SYS_READDIR] →
      Event.lock_acquire ∉ handler_events e k c) := by
  refine ⟨?_, ?_⟩ <;> intro hc <;> cases c <;>
    first
    | (simp [Call.nr] at hc; done)
    | (simp only [run_handler, handler_events, syscall_close, syscall_remove,
        syscall_chdir, syscall_mkdir, syscall_readdir, syscall_create, syscall_seek]
       (repeat' split) <;>
       simp [Outcome.ending, Kernel.log, fs_calls_locked, Event.is_fs_call,
         dir_arg_no_acquire])

/-- C12: at the failing inputs calls into the file system are made with the
lock free.  `syscall_tell` on descriptor 3 calls `file_get_inode` and
`inode_isdir` before it acquires the lock, and `syscall_mkdir` calls
`path_paser`, `subdir_create` and `dir_close` without ever acquiring it; the
coverage monitor also fails for open, read, write, chdir and readdir. -/
theorem fs_calls_outside_lock :
    handler_events exEnv exKernel (Call.syscall_tell 3) =
      [Event.file_get_inode 7, Event.inode_isdir 7, Event.lock_acquire, Event.file_tell 7,
        Event.lock_release] ∧
    fs_calls_locked (fun _ => false) false
      (handler_events exEnv exKernel (Call.syscall_tell 3)) = false ∧
    handler_events exEnv exKernel (Call.syscall_mkdir 0x8048ffe) =
      [Event.strlen 0x8048ffe, Event.malloc, Event.is_rootpath 0x8048ffe,
        Event.path_paser 0x8048ffe, Event.subdir_create 11 0x8048ffe,
        Event.dir_close (some 11), Event.free] ∧
    fs_calls_locked (fun _ => false) false
      (handler_events exEnv exKernel (Call.syscall_mkdir 0x8048ffe)) = false ∧
    fs_calls_locked (fun _ => false) false
      (handler_events exEnv exKernel (Call.syscall_open 0x8048ffe)) = false ∧
    fs_calls_locked (fun _ => false) false
      (handler_events exEnv exKernel (Call.syscall_read 3 0x8049000 4)) = false ∧
    fs_calls_locked (fun _ => false) false
      (handler_events exEnv exKernel (Call.syscall_write 3 0x8049000 4)) = false ∧
    fs_calls_locked (fun _ => false) false
      (handler_events exEnv exKernel (Call.syscall_chdir 0x8048ffe)) = false ∧
    fs_calls_locked (fun _ => false) false
      (handler_events exEnvDir exKernel (Call.syscall_readdir 3 0x8049000)) = false := by
  decide

end Pintos
